import Mathlib

/-!
Shallow embedding of the SCPapi reference-consistency logic.

The source under scrutiny is src/routes/scptales.js (POST, DELETE and PUT
handlers for the SCPTales collection) and src/routes/scp.js (DELETE handler
for the SCPs collection).  The MongoDB store is modelled as two in-memory
lists; updateOne / deleteOne / findOne act on the first matching document,
addToSet appends when absent, and the pull operator removes all
occurrences, mirroring the MongoDB operators used by the source.
-/

namespace SCPapi

/-- Shape of the value found in the scp_id field of a request body or a
stored tale document, as far as the JavaScript handlers can distinguish it:
an array of entity keys, a string (iterable character by character by a
for-of loop, truthy iff nonempty, lacking the filter method), or any other
non-array non-iterable value (null, number, boolean, plain object), which
makes a for-of loop or a filter call throw; only its truthiness remains
observable. -/
inductive RefsField where
  | arr (l : List String)
  | str (s : String)
  | nonIter (truthy : Bool)
  deriving DecidableEq

/-- JavaScript Array.isArray on a RefsField value. -/
def RefsField.isArr : RefsField → Bool
  | .arr _ => true
  | _ => false

/-- JavaScript truthiness of a RefsField value. -/
def RefsField.jsTruthy : RefsField → Bool
  | .arr _ => true
  | .str s => s != ""
  | .nonIter b => b

/-- Document of the SCPs collection.  The descriptive attributes are kept
verbatim from the source; only scp_id (the key) and scp_tales (the
back-reference array maintained by the tale handlers) carry logic. -/
structure Scp where
  scp_id : String
  title : String
  description : String
  classification : String
  rating : Int
  url : String
  series : String
  photo_url : String
  creator : String
  scp_tales : List String
  deriving DecidableEq

/-- Document of the SCPTales collection, with the fields the POST handler
destructures from the request body.  The scp_id field keeps the raw
JavaScript value (or none when the field was absent, in which case the
document stores an undefined-like falsy non-iterable). -/
structure Tale where
  tale_id : String
  title : String
  content : String
  scp_id : Option RefsField
  rating : Int
  url : String
  deriving DecidableEq

/-- The two collections of the scp database. -/
structure DB where
  scps : List Scp
  tales : List Tale
  deriving DecidableEq

/-- MongoDB updateOne: apply f to the first document matching p, leave the
rest unchanged. -/
def updateFirst {α : Type} (p : α → Bool) (f : α → α) : List α → List α
  | [] => []
  | x :: xs => if p x then f x :: xs else x :: updateFirst p f xs

/-- MongoDB deleteOne: remove the first document matching p. -/
def deleteFirst {α : Type} (p : α → Bool) : List α → List α
  | [] => []
  | x :: xs => if p x then xs else x :: deleteFirst p xs

/-- MongoDB addToSet on an array field: append the value iff absent. -/
def addToSet (l : List String) (x : String) : List String :=
  if l.contains x then l else l ++ [x]

/-- MongoDB pull on an array field: remove every occurrence of the value. -/
def pull (l : List String) (x : String) : List String :=
  l.filter (fun y => y != x)

/-- findOne on the SCPs collection with filter scp_id = k. -/
def findScp (db : DB) (k : String) : Option Scp :=
  db.scps.find? (fun e => e.scp_id == k)

/-- findOne on the SCPTales collection with filter tale_id = tid. -/
def findTale (db : DB) (tid : String) : Option Tale :=
  db.tales.find? (fun t => t.tale_id == tid)

/-- One back-reference add step of the POST and PUT handlers:
updateOne on SCPs with filter scp_id = k and modifier addToSet scp_tales
tid. -/
def addBackRef (db : DB) (k tid : String) : DB :=
  let scps2 := updateFirst (fun e => e.scp_id == k)
    (fun e => { e with scp_tales := addToSet e.scp_tales tid }) db.scps
  { db with scps := scps2 }

/-- One back-reference removal step of the DELETE and PUT handlers:
updateOne on SCPs with filter scp_id = k and modifier pull scp_tales
tid. -/
def removeBackRef (db : DB) (k tid : String) : DB :=
  let scps2 := updateFirst (fun e => e.scp_id == k)
    (fun e => { e with scp_tales := pull e.scp_tales tid }) db.scps
  { db with scps := scps2 }

/-- Request body of POST /SCPTales as destructured by the handler. -/
structure CreateBody where
  tale_id : String
  title : String
  content : String
  scp_id : Option RefsField
  rating : Int
  url : String
  deriving DecidableEq

/-- Outcome of POST /SCPTales: 201, 400 with the list of missing keys, or
500 from a caught exception. -/
inductive CreateStatus where
  | created
  | missingRefs (keys : List String)
  | storeError
  deriving DecidableEq

/-- Characters of a string as one-character strings, the values a
JavaScript for-of loop yields when iterating a string. -/
def strChars (s : String) : List String :=
  s.data.map (fun c => String.mk [c])

/-- Values produced by a JavaScript for-of loop over the scp_id field:
arrays yield their elements, strings yield their characters, and every
other value (undefined included) makes the loop throw, modelled by
none. -/
def forOfRefs : Option RefsField → Option (List String)
  | some (.arr l) => some l
  | some (.str s) => some (strChars s)
  | _ => none

/-- POST /SCPTales handler.  Step 1 collects the missing entity keys, but
only when scp_id is a truthy array; a nonempty missing list short-circuits
with a 400 and no write.  Step 2 inserts the tale document.  Step 3 runs a
for-of loop over the raw scp_id value issuing an addToSet per key; when
that value is not iterable the loop throws, the catch block answers 500
and the inserted tale stays persisted. -/
def createTale (db : DB) (b : CreateBody) : DB × CreateStatus :=
  let missingScps : List String :=
    match b.scp_id with
    | some (.arr l) => l.filter (fun k => (findScp db k).isNone)
    | _ => []
  if missingScps = [] then
    let tale : Tale := ⟨b.tale_id, b.title, b.content, b.scp_id, b.rating, b.url⟩
    let db1 : DB := { db with tales := db.tales ++ [tale] }
    match forOfRefs b.scp_id with
    | none => (db1, .storeError)
    | some ks => (ks.foldl (fun s k => addBackRef s k b.tale_id) db1, .created)
  else
    (db, .missingRefs missingScps)

/-- Outcome of DELETE /SCPTales. -/
inductive DeleteStatus where
  | deleted
  | notFound
  deriving DecidableEq

/-- DELETE /SCPTales handler.  Look the tale up; answer 404 when absent;
otherwise deleteOne it and, when the stored scp_id is a truthy array, pull
the tale identifier from each listed entity. -/
def deleteTale (db : DB) (tid : String) : DB × DeleteStatus :=
  match findTale db tid with
  | none => (db, .notFound)
  | some tale =>
    let db1 : DB := { db with tales := deleteFirst (fun t => t.tale_id == tid) db.tales }
    match tale.scp_id with
    | some (.arr l) => (l.foldl (fun s k => removeBackRef s k tid) db1, .deleted)
    | _ => (db1, .deleted)

/-- Request body of PUT /SCPTales, one optional entry per tale field; a
field is absent from the JSON body iff its component is none. -/
structure TalePatch where
  tale_id : Option String
  title : Option String
  content : Option String
  scp_id : Option RefsField
  rating : Option Int
  url : Option String
  deriving DecidableEq

/-- Emptiness test of the PUT body, the Object.keys length check. -/
def TalePatch.isEmpty (p : TalePatch) : Bool :=
  p.tale_id.isNone && p.title.isNone && p.content.isNone &&
    p.scp_id.isNone && p.rating.isNone && p.url.isNone

/-- Field-level merge performed by the set modifier of updateOne: every
field named by the patch takes the supplied value, the rest keep their
prior values. -/
def applyPatch (t : Tale) (p : TalePatch) : Tale :=
  { tale_id := p.tale_id.getD t.tale_id
    title := p.title.getD t.title
    content := p.content.getD t.content
    scp_id := match p.scp_id with
      | some r => some r
      | none => t.scp_id
    rating := p.rating.getD t.rating
    url := p.url.getD t.url }

/-- Outcome of PUT /SCPTales: 200, 404, 400 for an empty body, 400 when
the merge modified nothing, or 500 from a caught exception. -/
inductive UpdateStatus where
  | updated
  | notFound
  | noFields
  | notUpdated
  | storeError
  deriving DecidableEq

/-- PUT /SCPTales handler.  Reject an empty body; look the tale up and
answer 404 when absent; apply the merge via updateOne; when the modified
count is zero answer 400 and stop.  Otherwise, when the patch contains a
truthy scp_id, reconcile back-references: with both the stored and the
patched scp_id arrays, pull the tale identifier from each key of old minus
new and addToSet it to each key of new minus old; any other shape makes
the filter or includes call throw, the catch block answers 500 and the
merged document stays persisted. -/
def updateTale (db : DB) (tid : String) (p : TalePatch) : DB × UpdateStatus :=
  if p.isEmpty then (db, .noFields)
  else
    match findTale db tid with
    | none => (db, .notFound)
    | some existingTale =>
      let newDoc : Tale := applyPatch existingTale p
      let db1 : DB :=
        { db with tales := updateFirst (fun t => t.tale_id == tid) (fun _ => newDoc) db.tales }
      if newDoc = existingTale then (db1, .notUpdated)
      else
        match p.scp_id with
        | none => (db1, .updated)
        | some r =>
          if r.jsTruthy then
            match existingTale.scp_id, r with
            | some (.arr oldL), .arr newL =>
              let removedScps := oldL.filter (fun k => !(newL.contains k))
              let addedScps := newL.filter (fun k => !(oldL.contains k))
              let db2 := removedScps.foldl (fun s k => removeBackRef s k tid) db1
              let db3 := addedScps.foldl (fun s k => addBackRef s k tid) db2
              (db3, .updated)
            | _, _ => (db1, .storeError)
          else (db1, .updated)

/-- Outcome of DELETE /SCPs. -/
inductive ScpDeleteStatus where
  | deleted
  | notFound
  deriving DecidableEq

/-- DELETE /SCPs handler from src/routes/scp.js: deleteOne on the SCPs
collection, 404 iff the deleted count is zero.  No read or write touches
the SCPTales collection. -/
def deleteScp (db : DB) (k : String) : DB × ScpDeleteStatus :=
  if db.scps.any (fun e => e.scp_id == k) then
    ({ db with scps := deleteFirst (fun e => e.scp_id == k) db.scps }, .deleted)
  else
    (db, .notFound)

/-- Forward-reference keys of a stored tale: the entries of its scp_id
field when that field is an array of keys, nothing otherwise. -/
def refKeys : Option RefsField → List String
  | some (.arr l) => l
  | _ => []

/-- Referential-integrity invariant of the specification: every forward
reference of a live tale is matched by a back-reference of an existing
entity, and every back-reference entry is matched by a forward reference
of a live tale. -/
def Inv (db : DB) : Prop :=
  (∀ t ∈ db.tales, ∀ k ∈ refKeys t.scp_id,
      ∃ e ∈ db.scps, e.scp_id = k ∧ t.tale_id ∈ e.scp_tales) ∧
  (∀ e ∈ db.scps, ∀ tid ∈ e.scp_tales,
      ∃ t ∈ db.tales, t.tale_id = tid ∧ e.scp_id ∈ refKeys t.scp_id)

instance (db : DB) : Decidable (Inv db) := by
  unfold Inv
  exact inferInstance

/-- Well-formed store: entity keys are pairwise distinct and tale
identifiers are pairwise distinct. -/
def WF (db : DB) : Prop :=
  (db.scps.map (fun e => e.scp_id)).Nodup ∧
    (db.tales.map (fun t => t.tale_id)).Nodup

instance (db : DB) : Decidable (WF db) := by
  unfold WF
  exact inferInstance

/-- Membership form of the list contains test used by the handlers. -/
theorem contains_iff (l : List String) (x : String) : l.contains x = true ↔ x ∈ l :=
  List.elem_iff

/-- An updateFirst application leaves every projection untouched by the
modifier unchanged on the whole list. -/
theorem updateFirst_map_proj {α β : Type} (p : α → Bool) (f : α → α) (g : α → β)
    (hg : ∀ x, g (f x) = g x) :
    ∀ l : List α, (updateFirst p f l).map g = l.map g
  | [] => rfl
  | x :: xs => by
    by_cases h : p x
    · simp [updateFirst, h, hg]
    · simp [updateFirst, h, updateFirst_map_proj p f g hg xs]

/-- When the key column of the list has no duplicates, updateFirst with a
key filter coincides with a conditional map. -/
theorem updateFirst_eq_map {α : Type} (kf : α → String) (k : String) (f : α → α) :
    ∀ l : List α, (l.map kf).Nodup →
      updateFirst (fun x => kf x == k) f l = l.map (fun x => if kf x == k then f x else x)
  | [], _ => rfl
  | x :: xs, h => by
    have h2 : (kf x :: xs.map kf).Nodup := h
    have hx : kf x ∉ xs.map kf := (List.nodup_cons.mp h2).1
    have hxs : (xs.map kf).Nodup := (List.nodup_cons.mp h2).2
    by_cases hpx : (kf x == k) = true
    · have hxk : kf x = k := by simpa using hpx
      have heq : updateFirst (fun y => kf y == k) f (x :: xs) = f x :: xs := by
        simp [updateFirst, hpx]
      have htail : xs.map (fun y => if (kf y == k) = true then f y else y) = xs := by
        have hpt : ∀ y ∈ xs, (if (kf y == k) = true then f y else y) = id y := by
          intro y hy
          have hyk : kf y ≠ k := by
            intro hyk
            apply hx
            rw [hxk, ← hyk]
            exact List.mem_map_of_mem kf hy
          simp [hyk]
        rw [List.map_eq_map_iff.mpr hpt, List.map_id]
      rw [heq, List.map_cons, if_pos hpx, htail]
    · have hrec := updateFirst_eq_map kf k f xs hxs
      have heq : updateFirst (fun y => kf y == k) f (x :: xs)
          = x :: updateFirst (fun y => kf y == k) f xs := by
        simp [updateFirst, hpx]
      rw [heq, hrec, List.map_cons, if_neg hpx]

/-- When the key column of the list has no duplicates, deleteFirst with a
key filter coincides with a filter. -/
theorem deleteFirst_eq_filter {α : Type} (kf : α → String) (k : String) :
    ∀ l : List α, (l.map kf).Nodup →
      deleteFirst (fun x => kf x == k) l = l.filter (fun x => !(kf x == k))
  | [], _ => rfl
  | x :: xs, h => by
    have h2 : (kf x :: xs.map kf).Nodup := h
    have hx : kf x ∉ xs.map kf := (List.nodup_cons.mp h2).1
    have hxs : (xs.map kf).Nodup := (List.nodup_cons.mp h2).2
    by_cases hpx : (kf x == k) = true
    · have hxk : kf x = k := by simpa using hpx
      have heq : deleteFirst (fun y => kf y == k) (x :: xs) = xs := by
        simp [deleteFirst, hpx]
      have hfil : xs.filter (fun y => !(kf y == k)) = xs := by
        apply List.filter_eq_self.mpr
        intro y hy
        have hyk : kf y ≠ k := by
          intro hyk
          apply hx
          rw [hxk, ← hyk]
          exact List.mem_map_of_mem kf hy
        simpa using hyk
      rw [heq, List.filter_cons_of_neg (by simp [hpx]), hfil]
    · have hrec := deleteFirst_eq_filter kf k xs hxs
      have heq : deleteFirst (fun y => kf y == k) (x :: xs)
          = x :: deleteFirst (fun y => kf y == k) xs := by
        simp [deleteFirst, hpx]
      rw [heq, hrec, List.filter_cons_of_pos (by simp [hpx])]

/-- Replacing the first match of a document that the lookup already
returned is a no-op on the list. -/
theorem updateFirst_const_of_find {α : Type} (p : α → Bool) (a : α) :
    ∀ l : List α, l.find? p = some a → updateFirst p (fun _ => a) l = l
  | [], h => by simp at h
  | x :: xs, h => by
    by_cases hpx : p x
    · have hax : a = x := by
        rw [List.find?_cons_of_pos _ hpx] at h
        simpa using h.symm
      simp [updateFirst, hpx, hax]
    · have hfind : xs.find? p = some a := by
        rwa [List.find?_cons_of_neg _ hpx] at h
      simp [updateFirst, hpx, updateFirst_const_of_find p a xs hfind]

/-- The image of the first match stays in the list after updateFirst. -/
theorem mem_updateFirst_of_find {α : Type} (p : α → Bool) (f : α → α) (a : α) :
    ∀ l : List α, l.find? p = some a → f a ∈ updateFirst p f l
  | [], h => by simp at h
  | x :: xs, h => by
    by_cases hpx : p x
    · have hax : a = x := by
        rw [List.find?_cons_of_pos _ hpx] at h
        simpa using h.symm
      simp [updateFirst, hpx, hax]
    · have hfind : xs.find? p = some a := by
        rwa [List.find?_cons_of_neg _ hpx] at h
      simp only [updateFirst, if_neg hpx]
      exact List.mem_cons_of_mem x (mem_updateFirst_of_find p f a xs hfind)

/-- Membership after a set-semantics add. -/
theorem mem_addToSet {y : String} {l : List String} {x : String} :
    y ∈ addToSet l x ↔ y ∈ l ∨ y = x := by
  by_cases hx : x ∈ l
  · have hset : addToSet l x = l := by simp [addToSet, hx]
    rw [hset]
    constructor
    · exact Or.inl
    · rintro (hy | rfl)
      · exact hy
      · exact hx
  · have hset : addToSet l x = l ++ [x] := by simp [addToSet, hx]
    rw [hset]
    simp

/-- The added identifier is a member after a set-semantics add. -/
theorem self_mem_addToSet (l : List String) (x : String) : x ∈ addToSet l x :=
  mem_addToSet.mpr (Or.inr rfl)

/-- A set-semantics add is idempotent. -/
theorem addToSet_idem (l : List String) (x : String) :
    addToSet (addToSet l x) x = addToSet l x := by
  by_cases hx : x ∈ l
  · have h1 : addToSet l x = l := by simp [addToSet, hx]
    rw [h1, h1]
  · have h1 : addToSet l x = l ++ [x] := by simp [addToSet, hx]
    rw [h1]
    have h2 : x ∈ l ++ [x] := by simp
    simp [addToSet, h2]

/-- A back-reference list holding the identifier at most once holds it
exactly once after a set-semantics add. -/
theorem count_addToSet (l : List String) (x : String) (h : l.count x ≤ 1) :
    (addToSet l x).count x = 1 := by
  by_cases hx : x ∈ l
  · have h1 : 1 ≤ l.count x := List.one_le_count_iff.mpr hx
    have hset : addToSet l x = l := by simp [addToSet, hx]
    rw [hset]
    omega
  · have h0 : l.count x = 0 := List.count_eq_zero.mpr hx
    have hset : addToSet l x = l ++ [x] := by simp [addToSet, hx]
    rw [hset]
    simp [List.count_append, h0]

/-- Membership after a pull. -/
theorem mem_pull {y : String} {l : List String} {x : String} :
    y ∈ pull l x ↔ y ∈ l ∧ y ≠ x := by
  simp [pull, List.mem_filter]

/-- The pulled identifier is gone after a pull. -/
theorem not_mem_pull (l : List String) (x : String) : x ∉ pull l x := by
  intro h
  exact (mem_pull.mp h).2 rfl

/-- A pull is idempotent. -/
theorem pull_idem (l : List String) (x : String) : pull (pull l x) x = pull l x := by
  simp [pull, List.filter_filter]

/-- A back-reference add never touches the tales collection. -/
theorem addBackRef_tales (db : DB) (k tid : String) : (addBackRef db k tid).tales = db.tales :=
  rfl

/-- A back-reference removal never touches the tales collection. -/
theorem removeBackRef_tales (db : DB) (k tid : String) :
    (removeBackRef db k tid).tales = db.tales :=
  rfl

/-- A back-reference add never changes the entity key column. -/
theorem addBackRef_keys (db : DB) (k tid : String) :
    (addBackRef db k tid).scps.map (fun e => e.scp_id) = db.scps.map (fun e => e.scp_id) := by
  simp only [addBackRef]
  exact updateFirst_map_proj (fun e => e.scp_id == k)
    (fun e => { e with scp_tales := addToSet e.scp_tales tid })
    (fun e => e.scp_id) (fun _ => rfl) db.scps

/-- A back-reference removal never changes the entity key column. -/
theorem removeBackRef_keys (db : DB) (k tid : String) :
    (removeBackRef db k tid).scps.map (fun e => e.scp_id) = db.scps.map (fun e => e.scp_id) := by
  simp only [removeBackRef]
  exact updateFirst_map_proj (fun e => e.scp_id == k)
    (fun e => { e with scp_tales := pull e.scp_tales tid })
    (fun e => e.scp_id) (fun _ => rfl) db.scps

/-- The add loop of the handlers never touches the tales collection. -/
theorem foldl_addBackRef_tales (tid : String) :
    ∀ (ks : List String) (db : DB),
      (ks.foldl (fun s k => addBackRef s k tid) db).tales = db.tales
  | [], _ => rfl
  | k :: ks, db => by
    rw [List.foldl_cons, foldl_addBackRef_tales tid ks (addBackRef db k tid),
      addBackRef_tales]

/-- The pull loop of the handlers never touches the tales collection. -/
theorem foldl_removeBackRef_tales (tid : String) :
    ∀ (ks : List String) (db : DB),
      (ks.foldl (fun s k => removeBackRef s k tid) db).tales = db.tales
  | [], _ => rfl
  | k :: ks, db => by
    rw [List.foldl_cons, foldl_removeBackRef_tales tid ks (removeBackRef db k tid),
      removeBackRef_tales]

/-- The add loop of the handlers never changes the entity key column. -/
theorem foldl_addBackRef_keys (tid : String) :
    ∀ (ks : List String) (db : DB),
      (ks.foldl (fun s k => addBackRef s k tid) db).scps.map (fun e => e.scp_id)
        = db.scps.map (fun e => e.scp_id)
  | [], _ => rfl
  | k :: ks, db => by
    rw [List.foldl_cons, foldl_addBackRef_keys tid ks (addBackRef db k tid),
      addBackRef_keys]

/-- The pull loop of the handlers never changes the entity key column. -/
theorem foldl_removeBackRef_keys (tid : String) :
    ∀ (ks : List String) (db : DB),
      (ks.foldl (fun s k => removeBackRef s k tid) db).scps.map (fun e => e.scp_id)
        = db.scps.map (fun e => e.scp_id)
  | [], _ => rfl
  | k :: ks, db => by
    rw [List.foldl_cons, foldl_removeBackRef_keys tid ks (removeBackRef db k tid),
      removeBackRef_keys]

/-- Composing one add step with the conditional map of the remaining keys
gives the conditional map of the whole key list. -/
theorem addStep_comp (k tid : String) (ks : List String) (e : Scp) :
    (fun x : Scp => if ks.contains x.scp_id then
        { x with scp_tales := addToSet x.scp_tales tid } else x)
      (if e.scp_id == k then { e with scp_tales := addToSet e.scp_tales tid } else e)
    = if (k :: ks).contains e.scp_id then
        { e with scp_tales := addToSet e.scp_tales tid } else e := by
  by_cases h1 : e.scp_id = k
  · by_cases h2 : e.scp_id ∈ ks
    · simp [h1, h2, addToSet_idem]
    · simp [h1, h2, addToSet_idem]
  · by_cases h2 : e.scp_id ∈ ks
    · simp [h1, h2]
    · simp [h1, h2]

/-- Composing one pull step with the conditional map of the remaining keys
gives the conditional map of the whole key list. -/
theorem removeStep_comp (k tid : String) (ks : List String) (e : Scp) :
    (fun x : Scp => if ks.contains x.scp_id then
        { x with scp_tales := pull x.scp_tales tid } else x)
      (if e.scp_id == k then { e with scp_tales := pull e.scp_tales tid } else e)
    = if (k :: ks).contains e.scp_id then
        { e with scp_tales := pull e.scp_tales tid } else e := by
  by_cases h1 : e.scp_id = k
  · by_cases h2 : e.scp_id ∈ ks
    · simp [h1, h2, pull_idem]
    · simp [h1, h2, pull_idem]
  · by_cases h2 : e.scp_id ∈ ks
    · simp [h1, h2]
    · simp [h1, h2]

/-- For a store with pairwise-distinct entity keys, the add loop of the
handlers acts as a conditional map over the entity list: every entity
whose key occurs in the loop list gains the identifier by a set-semantics
add, every other entity is untouched. -/
theorem foldl_addBackRef_scps (tid : String) :
    ∀ (ks : List String) (db : DB), (db.scps.map (fun e => e.scp_id)).Nodup →
      (ks.foldl (fun s k => addBackRef s k tid) db).scps
        = db.scps.map (fun e => if ks.contains e.scp_id then
            { e with scp_tales := addToSet e.scp_tales tid } else e)
  | [], db, _ => by
    simp only [List.foldl_nil]
    have : ∀ e ∈ db.scps,
        (if ([] : List String).contains e.scp_id then
          { e with scp_tales := addToSet e.scp_tales tid } else e) = id e := by
      intro e _
      simp [List.contains]
    rw [List.map_eq_map_iff.mpr this, List.map_id]
  | k :: ks, db, h => by
    have hkeys : ((addBackRef db k tid).scps.map (fun e => e.scp_id)).Nodup := by
      rw [addBackRef_keys]
      exact h
    rw [List.foldl_cons, foldl_addBackRef_scps tid ks (addBackRef db k tid) hkeys]
    have hbase : (addBackRef db k tid).scps
        = db.scps.map (fun e => if e.scp_id == k then
            { e with scp_tales := addToSet e.scp_tales tid } else e) := by
      simp only [addBackRef]
      exact updateFirst_eq_map (fun e => e.scp_id) k _ db.scps h
    rw [hbase, List.map_map]
    exact List.map_eq_map_iff.mpr (fun e _ => addStep_comp k tid ks e)

/-- For a store with pairwise-distinct entity keys, the pull loop of the
handlers acts as a conditional map over the entity list: every entity
whose key occurs in the loop list loses the identifier by a pull, every
other entity is untouched. -/
theorem foldl_removeBackRef_scps (tid : String) :
    ∀ (ks : List String) (db : DB), (db.scps.map (fun e => e.scp_id)).Nodup →
      (ks.foldl (fun s k => removeBackRef s k tid) db).scps
        = db.scps.map (fun e => if ks.contains e.scp_id then
            { e with scp_tales := pull e.scp_tales tid } else e)
  | [], db, _ => by
    simp only [List.foldl_nil]
    have : ∀ e ∈ db.scps,
        (if ([] : List String).contains e.scp_id then
          { e with scp_tales := pull e.scp_tales tid } else e) = id e := by
      intro e _
      simp [List.contains]
    rw [List.map_eq_map_iff.mpr this, List.map_id]
  | k :: ks, db, h => by
    have hkeys : ((removeBackRef db k tid).scps.map (fun e => e.scp_id)).Nodup := by
      rw [removeBackRef_keys]
      exact h
    rw [List.foldl_cons, foldl_removeBackRef_scps tid ks (removeBackRef db k tid) hkeys]
    have hbase : (removeBackRef db k tid).scps
        = db.scps.map (fun e => if e.scp_id == k then
            { e with scp_tales := pull e.scp_tales tid } else e) := by
      simp only [removeBackRef]
      exact updateFirst_eq_map (fun e => e.scp_id) k _ db.scps h
    rw [hbase, List.map_map]
    exact List.map_eq_map_iff.mpr (fun e _ => removeStep_comp k tid ks e)

/-- Two stores with the same collections are the same store. -/
theorem DB_eq_of_parts (d1 d2 : DB) (h1 : d1.scps = d2.scps) (h2 : d1.tales = d2.tales) :
    d1 = d2 := by
  cases d1
  cases d2
  cases h1
  cases h2
  rfl

/-- A conditional map that leaves a projection unchanged leaves it
unchanged on the whole list. -/
theorem map_proj_cond {α β : Type} (q : α → Bool) (f : α → α) (g : α → β)
    (hf : ∀ x, g (f x) = g x) (l : List α) :
    (l.map (fun x => if q x then f x else x)).map g = l.map g := by
  rw [List.map_map]
  apply List.map_eq_map_iff.mpr
  intro x _
  by_cases h : q x <;> simp [h, hf]

/-- Unpacking a successful entity lookup. -/
theorem findScp_some (db : DB) (k : String) (e : Scp) (h : findScp db k = some e) :
    e ∈ db.scps ∧ e.scp_id = k := by
  refine ⟨List.mem_of_find?_eq_some h, ?_⟩
  simpa using List.find?_some h

/-- Unpacking a successful tale lookup. -/
theorem findTale_some (db : DB) (tid : String) (t : Tale) (h : findTale db tid = some t) :
    t ∈ db.tales ∧ t.tale_id = tid := by
  refine ⟨List.mem_of_find?_eq_some h, ?_⟩
  simpa using List.find?_some h

/-- An empty missing-key filter means every listed key resolves to an
entity of the store. -/
theorem valid_refs_exist (db : DB) (l : List String)
    (hm : l.filter (fun k => (findScp db k).isNone) = []) :
    ∀ k ∈ l, ∃ e ∈ db.scps, e.scp_id = k := by
  intro k hk
  have h1 := List.filter_eq_nil_iff.mp hm k hk
  cases hfind : findScp db k with
  | none => rw [hfind] at h1; simp at h1
  | some e =>
    obtain ⟨he, hek⟩ := findScp_some db k e hfind
    exact ⟨e, he, hek⟩

/-- Characterization of a successful tale creation with an array of valid
entity references over a store with pairwise-distinct entity keys: the
tale document is appended and every listed entity gains the tale
identifier by a set-semantics add. -/
theorem createTale_arr_char (db : DB) (b : CreateBody) (l : List String)
    (harr : b.scp_id = some (.arr l))
    (hm : l.filter (fun k => (findScp db k).isNone) = [])
    (hwf1 : (db.scps.map (fun e => e.scp_id)).Nodup) :
    (createTale db b).2 = .created ∧
    (createTale db b).1.tales
      = db.tales ++ [⟨b.tale_id, b.title, b.content, b.scp_id, b.rating, b.url⟩] ∧
    (createTale db b).1.scps
      = db.scps.map (fun e => if l.contains e.scp_id then
          { e with scp_tales := addToSet e.scp_tales b.tale_id } else e) := by
  have hred : createTale db b
      = ((l.foldl (fun s k => addBackRef s k b.tale_id)
          { db with tales := db.tales ++ [⟨b.tale_id, b.title, b.content, b.scp_id, b.rating, b.url⟩] }),
         .created) := by
    simp only [createTale, harr, forOfRefs]
    rw [if_pos hm]
  rw [hred]
  refine ⟨rfl, ?_, ?_⟩
  · exact foldl_addBackRef_tales b.tale_id l _
  · exact foldl_addBackRef_scps b.tale_id l _ hwf1

/-- A tale creation whose validation finds a missing key writes
nothing. -/
theorem createTale_missing_char (db : DB) (b : CreateBody) (l : List String)
    (harr : b.scp_id = some (.arr l))
    (hm : l.filter (fun k => (findScp db k).isNone) ≠ []) :
    createTale db b = (db, .missingRefs (l.filter (fun k => (findScp db k).isNone))) := by
  simp only [createTale, harr]
  rw [if_neg hm]

/-- Well-formedness and the referential-integrity invariant survive a tale
creation whose request carries an array of references and a fresh tale
identifier. -/
theorem createTale_preserves (db : DB) (b : CreateBody) (l : List String)
    (harr : b.scp_id = some (.arr l))
    (hfresh : ∀ t ∈ db.tales, t.tale_id ≠ b.tale_id)
    (hwf : WF db) (hinv : Inv db) :
    WF (createTale db b).1 ∧ Inv (createTale db b).1 := by
  by_cases hm : l.filter (fun k => (findScp db k).isNone) = []
  case neg =>
    rw [createTale_missing_char db b l harr hm]
    exact ⟨hwf, hinv⟩
  case pos =>
    obtain ⟨hst, htales, hscps⟩ := createTale_arr_char db b l harr hm hwf.1
    have hfinal : (createTale db b).1
        = ⟨db.scps.map (fun e => if l.contains e.scp_id then
              { e with scp_tales := addToSet e.scp_tales b.tale_id } else e),
           db.tales ++ [⟨b.tale_id, b.title, b.content, b.scp_id, b.rating, b.url⟩]⟩ :=
      DB_eq_of_parts _ _ hscps htales
    rw [hfinal]
    have hkeyF : ∀ e : Scp, (if l.contains e.scp_id then
        { e with scp_tales := addToSet e.scp_tales b.tale_id } else e).scp_id = e.scp_id := by
      intro e
      by_cases hc : l.contains e.scp_id = true
      · rw [if_pos hc]
      · rw [if_neg hc]
    constructor
    · -- well-formedness
      constructor
      · show ((db.scps.map (fun e => if l.contains e.scp_id then
            { e with scp_tales := addToSet e.scp_tales b.tale_id } else e)).map
              (fun e => e.scp_id)).Nodup
        rw [map_proj_cond (fun e => l.contains e.scp_id)
          (fun e => { e with scp_tales := addToSet e.scp_tales b.tale_id })
          (fun e => e.scp_id) (fun _ => rfl) db.scps]
        exact hwf.1
      · show (((db.tales ++ [Tale.mk b.tale_id b.title b.content b.scp_id b.rating b.url]).map
            (fun t => t.tale_id))).Nodup
        rw [List.map_append]
        have hnotin : b.tale_id ∉ db.tales.map (fun t => t.tale_id) := by
          intro hmem
          obtain ⟨t, htm, hteq⟩ := List.mem_map.mp hmem
          exact hfresh t htm hteq
        simp [List.nodup_append, hwf.2, hnotin]
    · constructor
      · -- forward direction
        intro t ht k hk
        rcases List.mem_append.mp ht with htl | htr
        · obtain ⟨e, he, hek, hmem⟩ := hinv.1 t htl k hk
          refine ⟨_, List.mem_map_of_mem _ he, ?_, ?_⟩
          · rw [hkeyF e, hek]
          · by_cases hc : l.contains e.scp_id = true
            · rw [if_pos hc]
              exact mem_addToSet.mpr (Or.inl hmem)
            · rw [if_neg hc]
              exact hmem
        · have ht2 : t = ⟨b.tale_id, b.title, b.content, b.scp_id, b.rating, b.url⟩ := by
            simpa using htr
          subst ht2
          have hkl : k ∈ l := by
            simpa [refKeys, harr] using hk
          obtain ⟨e, he, hek⟩ := valid_refs_exist db l hm k hkl
          have hc : l.contains e.scp_id = true :=
            (contains_iff l e.scp_id).mpr (by rw [hek]; exact hkl)
          refine ⟨_, List.mem_map_of_mem _ he, ?_, ?_⟩
          · rw [hkeyF e, hek]
          · rw [if_pos hc]
            exact self_mem_addToSet e.scp_tales b.tale_id
      · -- backward direction
        intro e2 he2 tid2 htid2
        obtain ⟨e, he, hFe⟩ := List.mem_map.mp he2
        by_cases hc : l.contains e.scp_id = true
        · have he2eq : e2 = { e with scp_tales := addToSet e.scp_tales b.tale_id } := by
            rw [← hFe, if_pos hc]
          subst he2eq
          rcases mem_addToSet.mp htid2 with hold | hnew
          · obtain ⟨t, htmem, htid, hkey⟩ := hinv.2 e he tid2 hold
            exact ⟨t, List.mem_append_left _ htmem, htid, by simpa using hkey⟩
          · subst hnew
            refine ⟨⟨b.tale_id, b.title, b.content, b.scp_id, b.rating, b.url⟩,
              List.mem_append_right _ (by simp), rfl, ?_⟩
            show ({ e with scp_tales := addToSet e.scp_tales b.tale_id } : Scp).scp_id
              ∈ refKeys b.scp_id
            rw [harr]
            exact (contains_iff l e.scp_id).mp hc
        · have he2eq : e2 = e := by
            rw [← hFe, if_neg hc]
          subst he2eq
          obtain ⟨t, htmem, htid, hkey⟩ := hinv.2 e2 he tid2 htid2
          exact ⟨t, List.mem_append_left _ htmem, htid, hkey⟩

/-- A conditional map over an empty key list changes nothing. -/
theorem map_if_contains_nil (f : Scp → Scp) (l : List Scp) :
    l.map (fun e => if ([] : List String).contains e.scp_id then f e else e) = l := by
  have h : ∀ e ∈ l, (if ([] : List String).contains e.scp_id then f e else e) = id e := by
    intro e _
    simp [List.contains]
  rw [List.map_eq_map_iff.mpr h, List.map_id]

/-- A tale deletion whose lookup fails writes nothing. -/
theorem deleteTale_none_char (db : DB) (tid : String) (h : findTale db tid = none) :
    deleteTale db tid = (db, .notFound) := by
  simp only [deleteTale, h]

/-- Characterization of a tale deletion over a well-formed store: the
tale document is filtered out and the tale identifier is pulled from
every entity listed by the stored forward references. -/
theorem deleteTale_some_char (db : DB) (tid : String) (t0 : Tale)
    (h : findTale db tid = some t0) (hwf : WF db) :
    (deleteTale db tid).2 = .deleted ∧
    (deleteTale db tid).1.tales = db.tales.filter (fun t => !(t.tale_id == tid)) ∧
    (deleteTale db tid).1.scps = db.scps.map (fun e =>
      if (refKeys t0.scp_id).contains e.scp_id then
        { e with scp_tales := pull e.scp_tales tid } else e) := by
  have hdel : deleteFirst (fun t => t.tale_id == tid) db.tales
      = db.tales.filter (fun t => !(t.tale_id == tid)) :=
    deleteFirst_eq_filter (fun t => t.tale_id) tid db.tales hwf.2
  cases ht0 : t0.scp_id with
  | none =>
    simp only [deleteTale, h, ht0]
    exact ⟨trivial, hdel, (map_if_contains_nil _ _).symm⟩
  | some r =>
    cases r with
    | arr l =>
      simp only [deleteTale, h, ht0]
      refine ⟨trivial, ?_, ?_⟩
      · rw [foldl_removeBackRef_tales]
        exact hdel
      · exact foldl_removeBackRef_scps tid l _ hwf.1
    | str s2 =>
      simp only [deleteTale, h, ht0]
      exact ⟨trivial, hdel, (map_if_contains_nil _ _).symm⟩
    | nonIter bb =>
      simp only [deleteTale, h, ht0]
      exact ⟨trivial, hdel, (map_if_contains_nil _ _).symm⟩

/-- Well-formedness and the referential-integrity invariant survive any
tale deletion. -/
theorem deleteTale_preserves (db : DB) (tid : String) (hwf : WF db) (hinv : Inv db) :
    WF (deleteTale db tid).1 ∧ Inv (deleteTale db tid).1 := by
  cases hf : findTale db tid with
  | none =>
    rw [deleteTale_none_char db tid hf]
    exact ⟨hwf, hinv⟩
  | some t0 =>
    obtain ⟨hst, htales, hscps⟩ := deleteTale_some_char db tid t0 hf hwf
    obtain ⟨ht0mem, ht0id⟩ := findTale_some db tid t0 hf
    have hfinal : (deleteTale db tid).1
        = ⟨db.scps.map (fun e => if (refKeys t0.scp_id).contains e.scp_id then
              { e with scp_tales := pull e.scp_tales tid } else e),
           db.tales.filter (fun t => !(t.tale_id == tid))⟩ :=
      DB_eq_of_parts _ _ hscps htales
    rw [hfinal]
    constructor
    · constructor
      · show ((db.scps.map (fun e => if (refKeys t0.scp_id).contains e.scp_id then
            { e with scp_tales := pull e.scp_tales tid } else e)).map
              (fun e => e.scp_id)).Nodup
        rw [map_proj_cond (fun e => (refKeys t0.scp_id).contains e.scp_id)
          (fun e => { e with scp_tales := pull e.scp_tales tid })
          (fun e => e.scp_id) (fun _ => rfl) db.scps]
        exact hwf.1
      · show (((db.tales.filter (fun t => !(t.tale_id == tid))).map
            (fun t => t.tale_id))).Nodup
        exact hwf.2.sublist ((db.tales.filter_sublist).map _)
    · constructor
      · -- forward direction
        intro t ht k hk
        obtain ⟨htmem, htP⟩ := List.mem_filter.mp ht
        have htne : t.tale_id ≠ tid := by simpa using htP
        obtain ⟨e, he, hek, hmem⟩ := hinv.1 t htmem k hk
        refine ⟨_, List.mem_map_of_mem _ he, ?_, ?_⟩
        · by_cases hc : (refKeys t0.scp_id).contains e.scp_id = true
          · rw [if_pos hc]
            exact hek
          · rw [if_neg hc]
            exact hek
        · by_cases hc : (refKeys t0.scp_id).contains e.scp_id = true
          · rw [if_pos hc]
            exact mem_pull.mpr ⟨hmem, htne⟩
          · rw [if_neg hc]
            exact hmem
      · -- backward direction
        intro e2 he2 tid2 htid2
        obtain ⟨e, he, hFe⟩ := List.mem_map.mp he2
        by_cases hc : (refKeys t0.scp_id).contains e.scp_id = true
        · have he2eq : e2 = { e with scp_tales := pull e.scp_tales tid } := by
            rw [← hFe, if_pos hc]
          subst he2eq
          obtain ⟨hold, hne⟩ := mem_pull.mp htid2
          obtain ⟨t, htmem, htidt, hkey⟩ := hinv.2 e he tid2 hold
          refine ⟨t, List.mem_filter.mpr ⟨htmem, by simp [htidt, hne]⟩, htidt,
            by simpa using hkey⟩
        · have he2eq : e2 = e := by
            rw [← hFe, if_neg hc]
          subst he2eq
          obtain ⟨t, htmem, htidt, hkey⟩ := hinv.2 e2 he tid2 htid2
          by_cases htt : tid2 = tid
          · subst htt
            have hteq : t = t0 :=
              List.inj_on_of_nodup_map hwf.2 htmem ht0mem (by rw [htidt, ht0id])
            rw [hteq] at hkey
            exact absurd ((contains_iff _ _).mpr hkey) hc
          · exact ⟨t, List.mem_filter.mpr ⟨htmem, by simp [htidt, htt]⟩, htidt, hkey⟩

/-- Validity of the entity references of a PUT body over a store: an
absent scp_id entry imposes nothing, an array entry requires every listed
key to resolve to an entity, and any other shape is rejected because the
reconciliation step of the handler would throw on it. -/
def refsOk (db : DB) : Option RefsField → Prop
  | none => True
  | some (.arr l) => ∀ k ∈ l, ∃ e ∈ db.scps, e.scp_id = k
  | some (.str _) => False
  | some (.nonIter _) => False

instance (db : DB) : (r : Option RefsField) → Decidable (refsOk db r)
  | none => .isTrue trivial
  | some (.arr l) =>
    inferInstanceAs (Decidable (∀ k ∈ l, ∃ e ∈ db.scps, e.scp_id = k))
  | some (.str _) => .isFalse (fun h => h)
  | some (.nonIter _) => .isFalse (fun h => h)

/-- A PUT body that names a scp_id entry is not empty. -/
theorem patch_not_empty (p : TalePatch) (r : RefsField) (hp : p.scp_id = some r) :
    p.isEmpty = false := by
  simp [TalePatch.isEmpty, hp]

/-- The merge keeps the tale identifier when the body does not name
it. -/
theorem applyPatch_tale_id (t : Tale) (p : TalePatch) (hpid : p.tale_id = none) :
    (applyPatch t p).tale_id = t.tale_id := by
  simp [applyPatch, hpid]

/-- The merge keeps the stored references when the body does not name
scp_id. -/
theorem applyPatch_refs_none (t : Tale) (p : TalePatch) (hp : p.scp_id = none) :
    (applyPatch t p).scp_id = t.scp_id := by
  simp [applyPatch, hp]

/-- The merge takes the supplied references when the body names
scp_id. -/
theorem applyPatch_refs_some (t : Tale) (p : TalePatch) (r : RefsField)
    (hp : p.scp_id = some r) : (applyPatch t p).scp_id = some r := by
  simp [applyPatch, hp]

/-- A tale update with an empty body writes nothing. -/
theorem updateTale_empty_char (db : DB) (tid : String) (p : TalePatch)
    (hemp : p.isEmpty = true) : updateTale db tid p = (db, .noFields) := by
  simp only [updateTale]
  rw [if_pos hemp]

/-- A tale update whose lookup fails writes nothing. -/
theorem updateTale_notFound_char (db : DB) (tid : String) (p : TalePatch)
    (hemp : p.isEmpty = false) (hfind : findTale db tid = none) :
    updateTale db tid p = (db, .notFound) := by
  simp only [updateTale]
  rw [if_neg (by simp [hemp]), hfind]

/-- A tale update whose merge changes nothing answers the
was-not-updated error and leaves the store as it was. -/
theorem updateTale_notUpdated_char (db : DB) (tid : String) (p : TalePatch) (t0 : Tale)
    (hemp : p.isEmpty = false) (hfind : findTale db tid = some t0)
    (hsame : applyPatch t0 p = t0) :
    updateTale db tid p = (db, .notUpdated) := by
  simp only [updateTale]
  rw [if_neg (by simp [hemp]), hfind]
  simp only [hsame]
  rw [if_pos trivial]
  have hfind2 : db.tales.find? (fun t => t.tale_id == tid) = some t0 := hfind
  have htales : updateFirst (fun t => t.tale_id == tid) (fun _ => t0) db.tales = db.tales :=
    updateFirst_const_of_find (fun t => t.tale_id == tid) t0 db.tales hfind2
  rw [Prod.mk.injEq]
  exact ⟨DB_eq_of_parts _ _ rfl htales, rfl⟩

/-- Characterization of a modifying tale update whose body does not name
scp_id over a store with pairwise-distinct tale identifiers: the merged
document replaces the stored one and no entity is touched. -/
theorem updateTale_noRefs_char (db : DB) (tid : String) (p : TalePatch) (t0 : Tale)
    (hwf2 : (db.tales.map (fun t => t.tale_id)).Nodup)
    (hemp : p.isEmpty = false) (hfind : findTale db tid = some t0)
    (hne : applyPatch t0 p ≠ t0) (hp : p.scp_id = none) :
    (updateTale db tid p).2 = .updated ∧
    (updateTale db tid p).1.tales
      = db.tales.map (fun t => if t.tale_id == tid then applyPatch t0 p else t) ∧
    (updateTale db tid p).1.scps = db.scps := by
  have hred : updateTale db tid p
      = (DB.mk db.scps (updateFirst (fun t => t.tale_id == tid)
          (fun _ => applyPatch t0 p) db.tales), .updated) := by
    simp only [updateTale]
    rw [if_neg (by simp [hemp])]
    simp only [hfind]
    rw [if_neg hne]
    simp only [hp]
  rw [hred]
  refine ⟨rfl, ?_, rfl⟩
  exact updateFirst_eq_map (fun t => t.tale_id) tid (fun _ => applyPatch t0 p) db.tales hwf2

/-- Composing the pull map of the removed keys with the add map of the
added keys yields the symmetric-difference map: entities keyed in old
minus new are pulled, entities keyed in new minus old gain the
identifier, all other entities are untouched. -/
theorem reconcile_comp (tid : String) (oldL newL : List String) (e : Scp) :
    (fun x : Scp => if (newL.filter (fun k => !(oldL.contains k))).contains x.scp_id then
        { x with scp_tales := addToSet x.scp_tales tid } else x)
      ((fun x : Scp => if (oldL.filter (fun k => !(newL.contains k))).contains x.scp_id then
        { x with scp_tales := pull x.scp_tales tid } else x) e)
    = if e.scp_id ∈ oldL ∧ e.scp_id ∉ newL then
        { e with scp_tales := pull e.scp_tales tid }
      else if e.scp_id ∈ newL ∧ e.scp_id ∉ oldL then
        { e with scp_tales := addToSet e.scp_tales tid }
      else e := by
  by_cases h1 : e.scp_id ∈ oldL <;> by_cases h2 : e.scp_id ∈ newL <;>
    simp [h1, h2, List.mem_filter]

/-- Characterization of a modifying tale update carrying an array of
references over a stored array of references, on a well-formed store: the
merged document replaces the stored one and the entities receive the
symmetric-difference reconciliation. -/
theorem updateTale_reconcile_char (db : DB) (tid : String) (p : TalePatch) (t0 : Tale)
    (oldL newL : List String) (hwf : WF db)
    (hfind : findTale db tid = some t0)
    (ht0 : t0.scp_id = some (.arr oldL))
    (hp : p.scp_id = some (.arr newL))
    (hne : applyPatch t0 p ≠ t0) :
    (updateTale db tid p).2 = .updated ∧
    (updateTale db tid p).1.tales
      = db.tales.map (fun t => if t.tale_id == tid then applyPatch t0 p else t) ∧
    (updateTale db tid p).1.scps
      = db.scps.map (fun e =>
          if e.scp_id ∈ oldL ∧ e.scp_id ∉ newL then
            { e with scp_tales := pull e.scp_tales tid }
          else if e.scp_id ∈ newL ∧ e.scp_id ∉ oldL then
            { e with scp_tales := addToSet e.scp_tales tid }
          else e) := by
  have hemp : p.isEmpty = false := patch_not_empty p _ hp
  have hred : updateTale db tid p
      = ((newL.filter (fun k => !(oldL.contains k))).foldl (fun s k => addBackRef s k tid)
          ((oldL.filter (fun k => !(newL.contains k))).foldl (fun s k => removeBackRef s k tid)
            (DB.mk db.scps (updateFirst (fun t => t.tale_id == tid)
              (fun _ => applyPatch t0 p) db.tales))), .updated) := by
    simp only [updateTale]
    rw [if_neg (by simp [hemp])]
    simp only [hfind]
    rw [if_neg hne]
    simp only [hp, RefsField.jsTruthy]
    rw [if_pos trivial]
    simp only [ht0]
  rw [hred]
  have hN1 : (((DB.mk db.scps (updateFirst (fun t => t.tale_id == tid)
      (fun _ => applyPatch t0 p) db.tales)).scps).map (fun e => e.scp_id)).Nodup := hwf.1
  have h2 := foldl_removeBackRef_scps tid (oldL.filter (fun k => !(newL.contains k)))
    (DB.mk db.scps (updateFirst (fun t => t.tale_id == tid)
      (fun _ => applyPatch t0 p) db.tales)) hN1
  have hN2 : ((((oldL.filter (fun k => !(newL.contains k))).foldl
      (fun s k => removeBackRef s k tid)
      (DB.mk db.scps (updateFirst (fun t => t.tale_id == tid)
        (fun _ => applyPatch t0 p) db.tales))).scps).map (fun e => e.scp_id)).Nodup := by
    rw [foldl_removeBackRef_keys]
    exact hwf.1
  have h3 := foldl_addBackRef_scps tid (newL.filter (fun k => !(oldL.contains k)))
    ((oldL.filter (fun k => !(newL.contains k))).foldl (fun s k => removeBackRef s k tid)
      (DB.mk db.scps (updateFirst (fun t => t.tale_id == tid)
        (fun _ => applyPatch t0 p) db.tales))) hN2
  refine ⟨rfl, ?_, ?_⟩
  · rw [foldl_addBackRef_tales, foldl_removeBackRef_tales]
    exact updateFirst_eq_map (fun t => t.tale_id) tid (fun _ => applyPatch t0 p) db.tales hwf.2
  · rw [h3, h2, List.map_map]
    apply List.map_eq_map_iff.mpr
    intro e _
    exact reconcile_comp tid oldL newL e

/-- A modifying tale update carrying a truthy references patch over a
stored non-array scp_id field throws in the reconciliation step and
answers a store error. -/
theorem updateTale_badStored_char (db : DB) (tid : String) (p : TalePatch) (t0 : Tale)
    (newL : List String)
    (hfind : findTale db tid = some t0)
    (hp : p.scp_id = some (.arr newL))
    (hne : applyPatch t0 p ≠ t0)
    (ht0bad : ∀ l2 : List String, t0.scp_id ≠ some (.arr l2)) :
    (updateTale db tid p).2 = .storeError := by
  have hemp : p.isEmpty = false := patch_not_empty p _ hp
  simp only [updateTale]
  rw [if_neg (by simp [hemp])]
  simp only [hfind]
  rw [if_neg hne]
  simp only [hp, RefsField.jsTruthy]
  rw [if_pos trivial]
  cases h0 : t0.scp_id with
  | none => simp [h0]
  | some r =>
    cases r with
    | arr l2 => exact absurd h0 (ht0bad l2)
    | str s2 => simp [h0]
    | nonIter bb => simp [h0]

/-- Replacing a stored tale by a document carrying the same identifier
keeps the tale identifier column of the store unchanged. -/
theorem tales_map_ids (db : DB) (tid : String) (nd : Tale) (hid : nd.tale_id = tid) :
    (db.tales.map (fun t => if t.tale_id == tid then nd else t)).map (fun t => t.tale_id)
      = db.tales.map (fun t => t.tale_id) := by
  rw [List.map_map]
  apply List.map_eq_map_iff.mpr
  intro t _
  show (if t.tale_id == tid then nd else t).tale_id = t.tale_id
  by_cases hb : (t.tale_id == tid) = true
  · rw [if_pos hb, hid]
    exact (by simpa using hb : t.tale_id = tid).symm
  · rw [if_neg hb]

/-- Well-formedness and the referential-integrity invariant survive a
tale update when the body does not rename the tale, any supplied
references form an array of keys resolving to entities, and the call does
not end in a store error. -/
theorem updateTale_preserves (db : DB) (tid : String) (p : TalePatch)
    (hpid : p.tale_id = none)
    (hrefs : refsOk db p.scp_id)
    (hok : (updateTale db tid p).2 ≠ .storeError)
    (hwf : WF db) (hinv : Inv db) :
    WF (updateTale db tid p).1 ∧ Inv (updateTale db tid p).1 := by
  by_cases hemp : p.isEmpty = true
  · rw [updateTale_empty_char db tid p hemp]
    exact ⟨hwf, hinv⟩
  · have hemp2 : p.isEmpty = false := by
      cases hb : p.isEmpty
      · rfl
      · exact absurd hb hemp
    cases hfind : findTale db tid with
    | none =>
      rw [updateTale_notFound_char db tid p hemp2 hfind]
      exact ⟨hwf, hinv⟩
    | some t0 =>
      obtain ⟨ht0mem, ht0id⟩ := findTale_some db tid t0 hfind
      by_cases hsame : applyPatch t0 p = t0
      · rw [updateTale_notUpdated_char db tid p t0 hemp2 hfind hsame]
        exact ⟨hwf, hinv⟩
      · have hidp : (applyPatch t0 p).tale_id = tid := by
          rw [applyPatch_tale_id t0 p hpid, ht0id]
        cases hp : p.scp_id with
        | none =>
          obtain ⟨hst, htales, hscps⟩ :=
            updateTale_noRefs_char db tid p t0 hwf.2 hemp2 hfind hsame hp
          have hfinal : (updateTale db tid p).1
              = ⟨db.scps,
                 db.tales.map (fun t => if t.tale_id == tid then applyPatch t0 p else t)⟩ :=
            DB_eq_of_parts _ _ hscps htales
          rw [hfinal]
          have hrefs0 : (applyPatch t0 p).scp_id = t0.scp_id := applyPatch_refs_none t0 p hp
          constructor
          · exact ⟨hwf.1, by
              show ((db.tales.map (fun t => if t.tale_id == tid then applyPatch t0 p else t)).map
                (fun t => t.tale_id)).Nodup
              rw [tales_map_ids db tid _ hidp]
              exact hwf.2⟩
          · constructor
            · intro t2 ht2 k hk
              obtain ⟨t, htmem, hcond⟩ := List.mem_map.mp ht2
              by_cases hb : (t.tale_id == tid) = true
              · have hteq : t = t0 :=
                  List.inj_on_of_nodup_map hwf.2 htmem ht0mem
                    (by rw [(by simpa using hb : t.tale_id = tid), ht0id])
                have ht2eq : t2 = applyPatch t0 p := by rw [← hcond, if_pos hb]
                subst ht2eq
                have hk2 : k ∈ refKeys t0.scp_id := by
                  rw [hrefs0] at hk
                  exact hk
                obtain ⟨e, he, hek, hmem⟩ := hinv.1 t0 ht0mem k hk2
                refine ⟨e, he, hek, ?_⟩
                rw [hidp, ← ht0id]
                exact hmem
              · have ht2eq : t2 = t := by rw [← hcond, if_neg hb]
                subst ht2eq
                exact hinv.1 t2 htmem k hk
            · intro e he tid2 htid2
              obtain ⟨t, htmem, htidt, hkey⟩ := hinv.2 e he tid2 htid2
              by_cases hb : (t.tale_id == tid) = true
              · have hteq : t = t0 :=
                  List.inj_on_of_nodup_map hwf.2 htmem ht0mem
                    (by rw [(by simpa using hb : t.tale_id = tid), ht0id])
                have hbt0 : (t0.tale_id == tid) = true := by simp [ht0id]
                refine ⟨applyPatch t0 p,
                  List.mem_map.mpr ⟨t0, ht0mem, by rw [if_pos hbt0]⟩, ?_, ?_⟩
                · rw [hidp]
                  exact ((by simpa using hb : t.tale_id = tid).symm).trans htidt
                · rw [hrefs0, ← hteq]
                  exact hkey
              · exact ⟨t, List.mem_map.mpr ⟨t, htmem, by rw [if_neg hb]⟩, htidt, hkey⟩
        | some r =>
          cases r with
          | str s2 =>
            rw [hp] at hrefs
            exact hrefs.elim
          | nonIter bb =>
            rw [hp] at hrefs
            exact hrefs.elim
          | arr newL =>
            have hall : ∀ k ∈ newL, ∃ e ∈ db.scps, e.scp_id = k := by
              rw [hp] at hrefs
              exact hrefs
            cases ht0 : t0.scp_id with
            | none =>
              exact absurd (updateTale_badStored_char db tid p t0 newL hfind hp hsame
                (fun l2 h => by rw [ht0] at h; cases h)) hok
            | some r0 =>
              cases r0 with
              | str s0 =>
                exact absurd (updateTale_badStored_char db tid p t0 newL hfind hp hsame
                  (fun l2 h => by rw [ht0] at h; cases h)) hok
              | nonIter b0 =>
                exact absurd (updateTale_badStored_char db tid p t0 newL hfind hp hsame
                  (fun l2 h => by rw [ht0] at h; cases h)) hok
              | arr oldL =>
                obtain ⟨hst, htales, hscps⟩ :=
                  updateTale_reconcile_char db tid p t0 oldL newL hwf hfind ht0 hp hsame
                have hfinal : (updateTale db tid p).1
                    = ⟨db.scps.map (fun e =>
                          if e.scp_id ∈ oldL ∧ e.scp_id ∉ newL then
                            { e with scp_tales := pull e.scp_tales tid }
                          else if e.scp_id ∈ newL ∧ e.scp_id ∉ oldL then
                            { e with scp_tales := addToSet e.scp_tales tid }
                          else e),
                       db.tales.map (fun t => if t.tale_id == tid then applyPatch t0 p else t)⟩ :=
                  DB_eq_of_parts _ _ hscps htales
                rw [hfinal]
                have hrefsN : (applyPatch t0 p).scp_id = some (.arr newL) :=
                  applyPatch_refs_some t0 p _ hp
                have hkeyF2 : ∀ e : Scp,
                    (if e.scp_id ∈ oldL ∧ e.scp_id ∉ newL then
                      { e with scp_tales := pull e.scp_tales tid }
                    else if e.scp_id ∈ newL ∧ e.scp_id ∉ oldL then
                      { e with scp_tales := addToSet e.scp_tales tid }
                    else e).scp_id = e.scp_id := by
                  intro e
                  by_cases hc1 : e.scp_id ∈ oldL ∧ e.scp_id ∉ newL
                  · rw [if_pos hc1]
                  · rw [if_neg hc1]
                    by_cases hc2 : e.scp_id ∈ newL ∧ e.scp_id ∉ oldL
                    · rw [if_pos hc2]
                    · rw [if_neg hc2]
                constructor
                · constructor
                  · show ((db.scps.map (fun e =>
                        if e.scp_id ∈ oldL ∧ e.scp_id ∉ newL then
                          { e with scp_tales := pull e.scp_tales tid }
                        else if e.scp_id ∈ newL ∧ e.scp_id ∉ oldL then
                          { e with scp_tales := addToSet e.scp_tales tid }
                        else e)).map (fun e => e.scp_id)).Nodup
                    have hmaps : ((db.scps.map (fun e =>
                        if e.scp_id ∈ oldL ∧ e.scp_id ∉ newL then
                          { e with scp_tales := pull e.scp_tales tid }
                        else if e.scp_id ∈ newL ∧ e.scp_id ∉ oldL then
                          { e with scp_tales := addToSet e.scp_tales tid }
                        else e)).map (fun e => e.scp_id)) = db.scps.map (fun e => e.scp_id) := by
                      rw [List.map_map]
                      exact List.map_eq_map_iff.mpr (fun e _ => hkeyF2 e)
                    rw [hmaps]
                    exact hwf.1
                  · show ((db.tales.map (fun t => if t.tale_id == tid then
                        applyPatch t0 p else t)).map (fun t => t.tale_id)).Nodup
                    rw [tales_map_ids db tid _ hidp]
                    exact hwf.2
                · constructor
                  · -- forward direction
                    intro t2 ht2 k hk
                    obtain ⟨t, htmem, hcond⟩ := List.mem_map.mp ht2
                    by_cases hb : (t.tale_id == tid) = true
                    · have hteq : t = t0 :=
                        List.inj_on_of_nodup_map hwf.2 htmem ht0mem
                          (by rw [(by simpa using hb : t.tale_id = tid), ht0id])
                      have ht2eq : t2 = applyPatch t0 p := by rw [← hcond, if_pos hb]
                      subst ht2eq
                      have hk2 : k ∈ newL := by
                        rw [hrefsN] at hk
                        exact hk
                      obtain ⟨e, he, hek⟩ := hall k hk2
                      refine ⟨_, List.mem_map_of_mem _ he, ?_, ?_⟩
                      · rw [hkeyF2 e, hek]
                      · rw [hidp]
                        by_cases h1 : e.scp_id ∈ oldL
                        · have h2e : e.scp_id ∈ newL := by rw [hek]; exact hk2
                          rw [if_neg (by intro hc; exact hc.2 h2e),
                            if_neg (by intro hc; exact hc.2 h1)]
                          have hkOld : k ∈ refKeys t0.scp_id := by
                            rw [ht0]
                            show k ∈ oldL
                            rw [← hek]
                            exact h1
                          obtain ⟨e4, he4, he4k, hmem4⟩ := hinv.1 t0 ht0mem k hkOld
                          have he4e : e4 = e :=
                            List.inj_on_of_nodup_map hwf.1 he4 he (by rw [he4k, hek])
                          rw [← ht0id, ← he4e]
                          exact hmem4
                        · have h2e : e.scp_id ∈ newL := by rw [hek]; exact hk2
                          rw [if_neg (by intro hc; exact h1 hc.1), if_pos ⟨h2e, h1⟩]
                          exact self_mem_addToSet e.scp_tales tid
                    · have ht2eq : t2 = t := by rw [← hcond, if_neg hb]
                      subst ht2eq
                      have htne : t2.tale_id ≠ tid := by simpa using hb
                      obtain ⟨e, he, hek, hmem⟩ := hinv.1 t2 htmem k hk
                      refine ⟨_, List.mem_map_of_mem _ he, ?_, ?_⟩
                      · rw [hkeyF2 e, hek]
                      · by_cases hc1 : e.scp_id ∈ oldL ∧ e.scp_id ∉ newL
                        · rw [if_pos hc1]
                          exact mem_pull.mpr ⟨hmem, htne⟩
                        · rw [if_neg hc1]
                          by_cases hc2 : e.scp_id ∈ newL ∧ e.scp_id ∉ oldL
                          · rw [if_pos hc2]
                            exact mem_addToSet.mpr (Or.inl hmem)
                          · rw [if_neg hc2]
                            exact hmem
                  · -- backward direction
                    intro e2 he2 tid2 htid2
                    obtain ⟨e, he, hFe⟩ := List.mem_map.mp he2
                    have hbt0 : (t0.tale_id == tid) = true := by simp [ht0id]
                    have hnewmem : applyPatch t0 p ∈
                        db.tales.map (fun t => if t.tale_id == tid then applyPatch t0 p else t) :=
                      List.mem_map.mpr ⟨t0, ht0mem, by rw [if_pos hbt0]⟩
                    by_cases hc1 : e.scp_id ∈ oldL ∧ e.scp_id ∉ newL
                    · have he2eq : e2 = { e with scp_tales := pull e.scp_tales tid } := by
                        rw [← hFe, if_pos hc1]
                      subst he2eq
                      obtain ⟨hold, hne2⟩ := mem_pull.mp htid2
                      obtain ⟨t, htmem, htidt, hkey⟩ := hinv.2 e he tid2 hold
                      have hbne : ¬((t.tale_id == tid) = true) := by simp [htidt, hne2]
                      exact ⟨t, List.mem_map.mpr ⟨t, htmem, by rw [if_neg hbne]⟩, htidt,
                        by simpa using hkey⟩
                    · by_cases hc2 : e.scp_id ∈ newL ∧ e.scp_id ∉ oldL
                      · have he2eq : e2 = { e with scp_tales := addToSet e.scp_tales tid } := by
                          rw [← hFe, if_neg hc1, if_pos hc2]
                        subst he2eq
                        by_cases htt : tid2 = tid
                        · subst htt
                          refine ⟨applyPatch t0 p, hnewmem, hidp, ?_⟩
                          show ({ e with scp_tales := addToSet e.scp_tales tid2 } : Scp).scp_id
                            ∈ refKeys (applyPatch t0 p).scp_id
                          rw [hrefsN]
                          exact hc2.1
                        · have hold : tid2 ∈ e.scp_tales := by
                            rcases mem_addToSet.mp htid2 with h | h
                            · exact h
                            · exact absurd h htt
                          obtain ⟨t, htmem, htidt, hkey⟩ := hinv.2 e he tid2 hold
                          have hbne : ¬((t.tale_id == tid) = true) := by simp [htidt, htt]
                          exact ⟨t, List.mem_map.mpr ⟨t, htmem, by rw [if_neg hbne]⟩, htidt,
                            by simpa using hkey⟩
                      · have he2eq : e2 = e := by
                          rw [← hFe, if_neg hc1, if_neg hc2]
                        subst he2eq
                        by_cases htt : tid2 = tid
                        · subst htt
                          obtain ⟨t, htmem, htidt, hkey⟩ := hinv.2 e2 he tid2 htid2
                          have hteq : t = t0 :=
                            List.inj_on_of_nodup_map hwf.2 htmem ht0mem
                              (by rw [htidt, ht0id])
                          rw [hteq, ht0] at hkey
                          have hinO : e2.scp_id ∈ oldL := hkey
                          have hinN : e2.scp_id ∈ newL := by
                            by_contra hcon
                            exact hc1 ⟨hinO, hcon⟩
                          refine ⟨applyPatch t0 p, hnewmem, hidp, ?_⟩
                          rw [hrefsN]
                          exact hinN
                        · obtain ⟨t, htmem, htidt, hkey⟩ := hinv.2 e2 he tid2 htid2
                          have hbne : ¬((t.tale_id == tid) = true) := by simp [htidt, htt]
                          exact ⟨t, List.mem_map.mpr ⟨t, htmem, by rw [if_neg hbne]⟩,
                            htidt, hkey⟩

/-- Array test on an optional scp_id value. -/
def isArrB : Option RefsField → Bool
  | some (.arr _) => true
  | _ => false

/-- One narrative-item operation of the API: a POST, PUT or DELETE request
of the SCPTales routes. -/
inductive Op where
  | createT (b : CreateBody)
  | updateT (tid : String) (p : TalePatch)
  | deleteT (tid : String)

/-- Store reached after one operation. -/
def stepDB (db : DB) : Op → DB
  | .createT b => (createTale db b).1
  | .updateT tid p => (updateTale db tid p).1
  | .deleteT tid => (deleteTale db tid).1

/-- The operation completed without a store error (no 500 answer). -/
def stepOk (db : DB) : Op → Prop
  | .createT b => (createTale db b).2 ≠ .storeError
  | .updateT tid p => (updateTale db tid p).2 ≠ .storeError
  | .deleteT _ => True

instance (db : DB) : (op : Op) → Decidable (stepOk db op)
  | .createT b => inferInstanceAs (Decidable ((createTale db b).2 ≠ .storeError))
  | .updateT tid p => inferInstanceAs (Decidable ((updateTale db tid p).2 ≠ .storeError))
  | .deleteT _ => .isTrue trivial

/-- Side conditions of the restricted invariant-preservation statement: a
creation supplies an array of references and a fresh tale identifier; an
update does not name the tale_id field and supplies references, if at all,
as an array of keys resolving to entities; a deletion is unrestricted. -/
def GoodOp (db : DB) : Op → Prop
  | .createT b => isArrB b.scp_id = true ∧ ∀ t ∈ db.tales, t.tale_id ≠ b.tale_id
  | .updateT _ p => p.tale_id = none ∧ refsOk db p.scp_id
  | .deleteT _ => True

instance (db : DB) : (op : Op) → Decidable (GoodOp db op)
  | .createT b => inferInstanceAs
      (Decidable (isArrB b.scp_id = true ∧ ∀ t ∈ db.tales, t.tale_id ≠ b.tale_id))
  | .updateT _ p => inferInstanceAs (Decidable (p.tale_id = none ∧ refsOk db p.scp_id))
  | .deleteT _ => .isTrue trivial

/-- A trace of operations each satisfying the side conditions and each
completing without a store error, checked against the store it actually
runs on. -/
def GoodTrace : DB → List Op → Prop
  | _, [] => True
  | db, op :: ops => GoodOp db op ∧ stepOk db op ∧ GoodTrace (stepDB db op) ops

instance instDecGoodTrace : (db : DB) → (ops : List Op) → Decidable (GoodTrace db ops)
  | _, [] => .isTrue trivial
  | db, op :: ops =>
    have _h3 : Decidable (GoodTrace (stepDB db op) ops) := instDecGoodTrace _ _
    inferInstanceAs (Decidable (GoodOp db op ∧ stepOk db op ∧ GoodTrace (stepDB db op) ops))

/-- Store reached after a sequence of operations. -/
def runOps (db : DB) (ops : List Op) : DB :=
  ops.foldl stepDB db

/-- Well-formedness and the referential-integrity invariant survive one
operation that satisfies the side conditions and completes without a
store error. -/
theorem step_preserves (db : DB) (op : Op) (hwf : WF db) (hinv : Inv db)
    (hg : GoodOp db op) (hok : stepOk db op) :
    WF (stepDB db op) ∧ Inv (stepDB db op) := by
  cases op with
  | createT b =>
    obtain ⟨harrB, hfresh⟩ := hg
    have harr : ∃ l, b.scp_id = some (.arr l) := by
      cases hb : b.scp_id with
      | none => rw [hb] at harrB; simp [isArrB] at harrB
      | some r =>
        cases r with
        | arr l => exact ⟨l, rfl⟩
        | str s2 => rw [hb] at harrB; simp [isArrB] at harrB
        | nonIter bb => rw [hb] at harrB; simp [isArrB] at harrB
    obtain ⟨l, harr⟩ := harr
    exact createTale_preserves db b l harr hfresh hwf hinv
  | updateT tid p =>
    obtain ⟨hpid, hrefs⟩ := hg
    exact updateTale_preserves db tid p hpid hrefs hok hwf hinv
  | deleteT tid =>
    exact deleteTale_preserves db tid hwf hinv

/-- Well-formedness and the referential-integrity invariant hold after
every prefix of a good trace. -/
theorem runOps_preserves (ops : List Op) (db : DB)
    (hwf : WF db) (hinv : Inv db) (hg : GoodTrace db ops) :
    ∀ n : Nat, WF (runOps db (ops.take n)) ∧ Inv (runOps db (ops.take n)) := by
  induction ops generalizing db with
  | nil =>
    intro n
    simpa [runOps] using ⟨hwf, hinv⟩
  | cons op ops ih =>
    intro n
    cases n with
    | zero =>
      simpa [runOps] using ⟨hwf, hinv⟩
    | succ n =>
      obtain ⟨hgo, hok, hg2⟩ := hg
      obtain ⟨hwf2, hinv2⟩ := step_preserves db op hwf hinv hgo hok
      have := ih (stepDB db op) hwf2 hinv2 hg2 n
      simpa [runOps] using this

/-- C3: a CreateNarrativeItem call whose entity_refs array contains at
least one key with no matching entity fails with MissingReferences listing
the missing keys and performs no write: the store is returned unchanged,
so the narrative-item count is unchanged and no back-reference set is
modified. -/
theorem c3_create_missing_refs_no_write (db : DB) (b : CreateBody) (l : List String)
    (harr : b.scp_id = some (.arr l))
    (hmiss : ∃ k ∈ l, findScp db k = none) :
    createTale db b
      = (db, .missingRefs (l.filter (fun k => (findScp db k).isNone))) ∧
    (createTale db b).1 = db ∧
    (createTale db b).1.tales.length = db.tales.length := by
  have hne : l.filter (fun k => (findScp db k).isNone) ≠ [] := by
    obtain ⟨k, hk, hfind⟩ := hmiss
    intro hcon
    have h2 := List.filter_eq_nil_iff.mp hcon k hk
    rw [hfind] at h2
    simp at h2
  have hchar := createTale_missing_char db b l harr hne
  refine ⟨hchar, ?_, ?_⟩
  · rw [hchar]
  · rw [hchar]

/-- Witness for C3 at a concrete input: an empty store and a creation
referencing the unknown key X. -/
theorem c3_witness :
    createTale (DB.mk [] []) (CreateBody.mk "T" "" "" (some (.arr ["X"])) 0 "")
      = (DB.mk [] [],
         .missingRefs (["X"].filter (fun k => (findScp (DB.mk [] []) k).isNone))) ∧
    (createTale (DB.mk [] []) (CreateBody.mk "T" "" "" (some (.arr ["X"])) 0 "")).1
      = DB.mk [] [] ∧
    (createTale (DB.mk [] []) (CreateBody.mk "T" "" "" (some (.arr ["X"])) 0 "")).1.tales.length
      = (DB.mk [] []).tales.length :=
  c3_create_missing_refs_no_write (DB.mk [] [])
    (CreateBody.mk "T" "" "" (some (.arr ["X"])) 0 "") ["X"] rfl
    ⟨"X", by decide, by decide⟩

/-- C5: DeleteNarrativeItem on a well-formed store satisfying the
referential-integrity invariant: when no item with the identifier exists
the call fails NotFound with no side effects; otherwise it succeeds, the
item is absent from subsequent lookups, and no live entity keeps the
identifier in its back-reference set, so in particular the identifier was
removed from every entity listed by the stored entity_refs. -/
theorem c5_delete_cleanup (db : DB) (tid : String) (hwf : WF db) (hinv : Inv db) :
    (findTale db tid = none → deleteTale db tid = (db, .notFound)) ∧
    (∀ t0, findTale db tid = some t0 →
      (deleteTale db tid).2 = .deleted ∧
      findTale (deleteTale db tid).1 tid = none ∧
      ∀ e ∈ (deleteTale db tid).1.scps, tid ∉ e.scp_tales) := by
  constructor
  · intro hnone
    exact deleteTale_none_char db tid hnone
  · intro t0 hfind
    obtain ⟨ht0mem, ht0id⟩ := findTale_some db tid t0 hfind
    obtain ⟨hst, htales, hscps⟩ := deleteTale_some_char db tid t0 hfind hwf
    refine ⟨hst, ?_, ?_⟩
    · unfold findTale
      rw [htales]
      apply List.find?_eq_none.mpr
      intro t ht
      have h2 := (List.mem_filter.mp ht).2
      simpa using h2
    · intro e2 he2
      rw [hscps] at he2
      obtain ⟨e, he, hFe⟩ := List.mem_map.mp he2
      by_cases hc : (refKeys t0.scp_id).contains e.scp_id = true
      · have he2eq : e2 = { e with scp_tales := pull e.scp_tales tid } := by
          rw [← hFe, if_pos hc]
        rw [he2eq]
        exact not_mem_pull e.scp_tales tid
      · have he2eq : e2 = e := by
          rw [← hFe, if_neg hc]
        rw [he2eq]
        intro hmem
        obtain ⟨t, htmem, htidt, hkey⟩ := hinv.2 e he tid hmem
        have hteq : t = t0 :=
          List.inj_on_of_nodup_map hwf.2 htmem ht0mem (by rw [htidt, ht0id])
        rw [hteq] at hkey
        exact hc ((contains_iff _ _).mpr hkey)

/-- Witness for C5 at a concrete input: a tale T referencing entities X
and Y, both initially holding T in their back-reference sets. -/
theorem c5_witness :
    (deleteTale (DB.mk [Scp.mk "X" "" "" "" 0 "" "" "" "" ["T"],
        Scp.mk "Y" "" "" "" 0 "" "" "" "" ["T"]]
      [Tale.mk "T" "" "" (some (.arr ["X", "Y"])) 0 ""]) "T").2 = .deleted ∧
    findTale (deleteTale (DB.mk [Scp.mk "X" "" "" "" 0 "" "" "" "" ["T"],
        Scp.mk "Y" "" "" "" 0 "" "" "" "" ["T"]]
      [Tale.mk "T" "" "" (some (.arr ["X", "Y"])) 0 ""]) "T").1 "T" = none ∧
    ∀ e ∈ (deleteTale (DB.mk [Scp.mk "X" "" "" "" 0 "" "" "" "" ["T"],
        Scp.mk "Y" "" "" "" 0 "" "" "" "" ["T"]]
      [Tale.mk "T" "" "" (some (.arr ["X", "Y"])) 0 ""]) "T").1.scps,
      "T" ∉ e.scp_tales :=
  (c5_delete_cleanup (DB.mk [Scp.mk "X" "" "" "" 0 "" "" "" "" ["T"],
        Scp.mk "Y" "" "" "" 0 "" "" "" "" ["T"]]
      [Tale.mk "T" "" "" (some (.arr ["X", "Y"])) 0 ""]) "T"
    (by decide) (by decide)).2
    (Tale.mk "T" "" "" (some (.arr ["X", "Y"])) 0 "") (by decide)

/-- C6: an entity deletion never cascades: the SCPTales collection is
left untouched by DELETE on the SCPs routes, for every store and key, and
the deletion succeeds whenever an entity with the key exists, in
particular when live narrative items still reference it, leaving their
forward references dangling. -/
theorem c6_entity_delete_no_cascade (db : DB) (k : String) :
    (deleteScp db k).1.tales = db.tales ∧
    ((∃ e ∈ db.scps, e.scp_id = k) → (deleteScp db k).2 = .deleted) := by
  unfold deleteScp
  by_cases hx : db.scps.any (fun e => e.scp_id == k) = true
  · rw [if_pos hx]
    exact ⟨rfl, fun _ => rfl⟩
  · rw [if_neg hx]
    refine ⟨rfl, ?_⟩
    rintro ⟨e, he, hek⟩
    exact absurd (List.any_eq_true.mpr ⟨e, he, by simp [hek]⟩) hx

/-- Witness for C6 at a concrete input: entity X is still referenced by
the live tale T; its deletion succeeds and the tale collection is
untouched. -/
theorem c6_witness :
    (deleteScp (DB.mk [Scp.mk "X" "" "" "" 0 "" "" "" "" ["T"]]
      [Tale.mk "T" "" "" (some (.arr ["X"])) 0 ""]) "X").1.tales
      = (DB.mk [Scp.mk "X" "" "" "" 0 "" "" "" "" ["T"]]
          [Tale.mk "T" "" "" (some (.arr ["X"])) 0 ""]).tales ∧
    (deleteScp (DB.mk [Scp.mk "X" "" "" "" 0 "" "" "" "" ["T"]]
      [Tale.mk "T" "" "" (some (.arr ["X"])) 0 ""]) "X").2 = .deleted :=
  ⟨(c6_entity_delete_no_cascade (DB.mk [Scp.mk "X" "" "" "" 0 "" "" "" "" ["T"]]
      [Tale.mk "T" "" "" (some (.arr ["X"])) 0 ""]) "X").1,
   (c6_entity_delete_no_cascade (DB.mk [Scp.mk "X" "" "" "" 0 "" "" "" "" ["T"]]
      [Tale.mk "T" "" "" (some (.arr ["X"])) 0 ""]) "X").2
     ⟨Scp.mk "X" "" "" "" 0 "" "" "" "" ["T"], by decide, rfl⟩⟩

/-- C7: UpdateNarrativeItem with an empty field set fails NoFieldsProvided
and performs no store access at all: the store is returned unchanged,
whether or not the target item exists. -/
theorem c7_empty_patch_rejected (db : DB) (tid : String) (p : TalePatch)
    (hemp : p.isEmpty = true) :
    updateTale db tid p = (db, .noFields) :=
  updateTale_empty_char db tid p hemp

/-- Witness for C7 at a concrete input: an empty body against a store
whose target item does not even exist. -/
theorem c7_witness :
    updateTale (DB.mk [Scp.mk "A" "" "" "" 0 "" "" "" "" []] []) "T"
      (TalePatch.mk none none none none none none)
      = (DB.mk [Scp.mk "A" "" "" "" 0 "" "" "" "" []] [], .noFields) :=
  c7_empty_patch_rejected (DB.mk [Scp.mk "A" "" "" "" 0 "" "" "" "" []] []) "T"
    (TalePatch.mk none none none none none none) rfl

/-- C8: the back-reference add step is idempotent: over a store with
pairwise-distinct entity keys holding an entity with the key whose
back-reference list holds the identifier at most once, running the add
step twice with the same key and identifier leaves that entity holding
the identifier exactly once, never duplicated. -/
theorem c8_backref_add_idempotent (db : DB) (k tid : String) (e : Scp)
    (hwf1 : (db.scps.map (fun x => x.scp_id)).Nodup)
    (he : e ∈ db.scps) (hek : e.scp_id = k)
    (hcount : e.scp_tales.count tid ≤ 1) :
    (∃ e2 ∈ (addBackRef (addBackRef db k tid) k tid).scps, e2.scp_id = k) ∧
    (∀ e3 ∈ (addBackRef (addBackRef db k tid) k tid).scps,
      e3.scp_id = k → e3.scp_tales.count tid = 1) := by
  have h1 : (addBackRef db k tid).scps = db.scps.map (fun x =>
      if x.scp_id == k then { x with scp_tales := addToSet x.scp_tales tid } else x) := by
    simp only [addBackRef]
    exact updateFirst_eq_map (fun x => x.scp_id) k _ db.scps hwf1
  have hN2 : ((addBackRef db k tid).scps.map (fun x => x.scp_id)).Nodup := by
    rw [addBackRef_keys]
    exact hwf1
  have h2 : (addBackRef (addBackRef db k tid) k tid).scps
      = (addBackRef db k tid).scps.map (fun x =>
          if x.scp_id == k then { x with scp_tales := addToSet x.scp_tales tid } else x) := by
    simp only [addBackRef]
    exact updateFirst_eq_map (fun x => x.scp_id) k _ (addBackRef db k tid).scps hN2
  have hkeystep : ∀ z : Scp, ((fun x : Scp =>
      if x.scp_id == k then { x with scp_tales := addToSet x.scp_tales tid } else x) z).scp_id
        = z.scp_id := by
    intro z
    by_cases hb : (z.scp_id == k) = true
    · exact (congrArg Scp.scp_id (if_pos hb)).trans rfl
    · exact (congrArg Scp.scp_id (if_neg hb)).trans rfl
  have hstep_pos : ∀ z : Scp, (z.scp_id == k) = true →
      (fun x : Scp =>
        if x.scp_id == k then { x with scp_tales := addToSet x.scp_tales tid } else x) z
      = { z with scp_tales := addToSet z.scp_tales tid } := by
    intro z hb
    exact if_pos hb
  rw [h2, h1]
  constructor
  · refine ⟨_, List.mem_map_of_mem _ (List.mem_map_of_mem _ he), ?_⟩
    rw [hkeystep, hkeystep, hek]
  · intro e3 he3 he3k
    obtain ⟨y, hy, hye⟩ := List.mem_map.mp he3
    obtain ⟨x, hx, hxy⟩ := List.mem_map.mp hy
    have hyk : y.scp_id = x.scp_id := by
      rw [← hxy]
      exact hkeystep x
    have he3k2 : e3.scp_id = y.scp_id := by
      rw [← hye]
      exact hkeystep y
    have hxk : x.scp_id = k := by
      rw [← hyk, ← he3k2]
      exact he3k
    have hxe2 : x = e := List.inj_on_of_nodup_map hwf1 hx he (by rw [hxk, hek])
    have hbx : (x.scp_id == k) = true := by simp [hxk]
    have hby : (y.scp_id == k) = true := by
      rw [hyk]
      exact hbx
    have hy2 : y = { x with scp_tales := addToSet x.scp_tales tid } := by
      rw [← hxy]
      exact hstep_pos x hbx
    have he3eq : e3 = { y with scp_tales := addToSet y.scp_tales tid } := by
      rw [← hye]
      exact hstep_pos y hby
    rw [he3eq, hy2]
    show (addToSet (addToSet x.scp_tales tid) tid).count tid = 1
    rw [addToSet_idem, hxe2]
    exact count_addToSet e.scp_tales tid hcount

/-- Witness for C8 at a concrete input: entity A with an empty
back-reference list gains the identifier T exactly once across two add
steps. -/
theorem c8_witness :
    (∃ e2 ∈ (addBackRef (addBackRef (DB.mk [Scp.mk "A" "" "" "" 0 "" "" "" "" []] [])
        "A" "T") "A" "T").scps, e2.scp_id = "A") ∧
    (∀ e3 ∈ (addBackRef (addBackRef (DB.mk [Scp.mk "A" "" "" "" 0 "" "" "" "" []] [])
        "A" "T") "A" "T").scps,
      e3.scp_id = "A" → e3.scp_tales.count "T" = 1) :=
  c8_backref_add_idempotent (DB.mk [Scp.mk "A" "" "" "" 0 "" "" "" "" []] []) "A" "T"
    (Scp.mk "A" "" "" "" 0 "" "" "" "" []) (by decide) (by decide) rfl (by decide)

/-- C10: a non-empty update of an existing item whose field-level merge
changes nothing answers the was-not-updated error instead of success and
leaves the store exactly as it was, so the back-reference reconciliation
is skipped even when the body includes an entity_refs list. -/
theorem c10_noop_merge_not_updated (db : DB) (tid : String) (p : TalePatch) (t0 : Tale)
    (hemp : p.isEmpty = false) (hfind : findTale db tid = some t0)
    (hsame : applyPatch t0 p = t0) :
    updateTale db tid p = (db, .notUpdated) :=
  updateTale_notUpdated_char db tid p t0 hemp hfind hsame

/-- Witness for C10 at a concrete input: the body resupplies the stored
title and the stored entity_refs list verbatim. -/
theorem c10_witness :
    updateTale (DB.mk [Scp.mk "A" "" "" "" 0 "" "" "" "" ["T"]]
        [Tale.mk "T" "x" "" (some (.arr ["A"])) 0 ""]) "T"
      (TalePatch.mk none (some "x") none (some (.arr ["A"])) none none)
      = (DB.mk [Scp.mk "A" "" "" "" 0 "" "" "" "" ["T"]]
          [Tale.mk "T" "x" "" (some (.arr ["A"])) 0 ""], .notUpdated) :=
  c10_noop_merge_not_updated (DB.mk [Scp.mk "A" "" "" "" 0 "" "" "" "" ["T"]]
      [Tale.mk "T" "x" "" (some (.arr ["A"])) 0 ""]) "T"
    (TalePatch.mk none (some "x") none (some (.arr ["A"])) none none)
    (Tale.mk "T" "x" "" (some (.arr ["A"])) 0 "") rfl (by decide) (by decide)

/-- C4: a successful UpdateNarrativeItem replacing the stored entity_refs
array by a new one, over a well-formed store, removes the item identifier
from exactly the entities keyed in old minus new, adds it to exactly the
entities keyed in new minus old, and leaves every other entity untouched,
keys in both lists included. -/
theorem c4_symmetric_difference_update (db : DB) (tid : String) (p : TalePatch) (t0 : Tale)
    (oldL newL : List String) (hwf : WF db)
    (hfind : findTale db tid = some t0)
    (ht0 : t0.scp_id = some (.arr oldL))
    (hp : p.scp_id = some (.arr newL))
    (hsucc : (updateTale db tid p).2 = .updated) :
    (updateTale db tid p).1.scps
      = db.scps.map (fun e =>
          if e.scp_id ∈ oldL ∧ e.scp_id ∉ newL then
            { e with scp_tales := pull e.scp_tales tid }
          else if e.scp_id ∈ newL ∧ e.scp_id ∉ oldL then
            { e with scp_tales := addToSet e.scp_tales tid }
          else e) := by
  have hne : applyPatch t0 p ≠ t0 := by
    intro hsame
    rw [updateTale_notUpdated_char db tid p t0 (patch_not_empty p _ hp) hfind hsame] at hsucc
    simp at hsucc
  exact (updateTale_reconcile_char db tid p t0 oldL newL hwf hfind ht0 hp hne).2.2

/-- Witness for C4 at the example of the specification: old references
A, B, C and new references B, C, D; the identifier leaves A, joins D, and
B and C are untouched. -/
theorem c4_witness :
    (updateTale (DB.mk [Scp.mk "A" "" "" "" 0 "" "" "" "" ["T"],
        Scp.mk "B" "" "" "" 0 "" "" "" "" ["T"],
        Scp.mk "C" "" "" "" 0 "" "" "" "" ["T"],
        Scp.mk "D" "" "" "" 0 "" "" "" "" []]
      [Tale.mk "T" "" "" (some (.arr ["A", "B", "C"])) 0 ""]) "T"
      (TalePatch.mk none none none (some (.arr ["B", "C", "D"])) none none)).1.scps
      = (DB.mk [Scp.mk "A" "" "" "" 0 "" "" "" "" ["T"],
          Scp.mk "B" "" "" "" 0 "" "" "" "" ["T"],
          Scp.mk "C" "" "" "" 0 "" "" "" "" ["T"],
          Scp.mk "D" "" "" "" 0 "" "" "" "" []]
        [Tale.mk "T" "" "" (some (.arr ["A", "B", "C"])) 0 ""]).scps.map (fun e =>
          if e.scp_id ∈ ["A", "B", "C"] ∧ e.scp_id ∉ ["B", "C", "D"] then
            { e with scp_tales := pull e.scp_tales "T" }
          else if e.scp_id ∈ ["B", "C", "D"] ∧ e.scp_id ∉ ["A", "B", "C"] then
            { e with scp_tales := addToSet e.scp_tales "T" }
          else e) :=
  c4_symmetric_difference_update (DB.mk [Scp.mk "A" "" "" "" 0 "" "" "" "" ["T"],
        Scp.mk "B" "" "" "" 0 "" "" "" "" ["T"],
        Scp.mk "C" "" "" "" 0 "" "" "" "" ["T"],
        Scp.mk "D" "" "" "" 0 "" "" "" "" []]
      [Tale.mk "T" "" "" (some (.arr ["A", "B", "C"])) 0 ""]) "T"
    (TalePatch.mk none none none (some (.arr ["B", "C", "D"])) none none)
    (Tale.mk "T" "" "" (some (.arr ["A", "B", "C"])) 0 "")
    ["A", "B", "C"] ["B", "C", "D"] (by decide) (by decide) rfl rfl (by decide)

/-- The symmetric-difference reconciliation step never changes the entity
key. -/
theorem reconcileStep_key (tid : String) (oldL newL : List String) (e : Scp) :
    (if e.scp_id ∈ oldL ∧ e.scp_id ∉ newL then
      { e with scp_tales := pull e.scp_tales tid }
    else if e.scp_id ∈ newL ∧ e.scp_id ∉ oldL then
      { e with scp_tales := addToSet e.scp_tales tid }
    else e).scp_id = e.scp_id := by
  by_cases hc1 : e.scp_id ∈ oldL ∧ e.scp_id ∉ newL
  · rw [if_pos hc1]
  · rw [if_neg hc1]
    by_cases hc2 : e.scp_id ∈ newL ∧ e.scp_id ∉ oldL
    · rw [if_pos hc2]
    · rw [if_neg hc2]

/-- Counterexample to C1 as stated: from a well-formed store satisfying
the invariant, a creation followed by an update complete without a store
error (201 then 200), yet the referential-integrity invariant fails
afterwards, because the update handler never validates the new references
and leaves the tale pointing at the nonexistent key B. -/
theorem c1_counterexample :
    WF (DB.mk [Scp.mk "A" "" "" "" 0 "" "" "" "" []] []) ∧
    Inv (DB.mk [Scp.mk "A" "" "" "" 0 "" "" "" "" []] []) ∧
    (createTale (DB.mk [Scp.mk "A" "" "" "" 0 "" "" "" "" []] [])
      (CreateBody.mk "T" "" "" (some (.arr ["A"])) 0 "")).2 = .created ∧
    (updateTale (createTale (DB.mk [Scp.mk "A" "" "" "" 0 "" "" "" "" []] [])
        (CreateBody.mk "T" "" "" (some (.arr ["A"])) 0 "")).1 "T"
      (TalePatch.mk none none none (some (.arr ["B"])) none none)).2 = .updated ∧
    ¬ Inv (updateTale (createTale (DB.mk [Scp.mk "A" "" "" "" 0 "" "" "" "" []] [])
        (CreateBody.mk "T" "" "" (some (.arr ["A"])) 0 "")).1 "T"
      (TalePatch.mk none none none (some (.arr ["B"])) none none)).1 := by
  decide

/-- C1 (amended): for every sequence of tale operations over a well-formed
store satisfying the referential-integrity invariant, in which every
creation supplies an array of references and a fresh identifier, every
update neither names the tale_id field nor supplies references other than
an array of keys existing at that point, and every operation completes
without a store error, the invariant holds after every prefix of the
sequence. -/
theorem c1_amended_invariant_preservation (db : DB) (ops : List Op)
    (hwf : WF db) (hinv : Inv db) (hg : GoodTrace db ops) (n : Nat) :
    Inv (runOps db (ops.take n)) :=
  (runOps_preserves ops db hwf hinv hg n).2

/-- Witness for the amended C1 at a concrete trace: create tale T against
entity A, then delete it; the invariant holds after the whole trace. -/
theorem c1_amended_witness :
    Inv (runOps (DB.mk [Scp.mk "A" "" "" "" 0 "" "" "" "" []] [])
      (([Op.createT (CreateBody.mk "T" "" "" (some (.arr ["A"])) 0 ""),
        Op.deleteT "T"]).take 2)) :=
  c1_amended_invariant_preservation (DB.mk [Scp.mk "A" "" "" "" 0 "" "" "" "" []] [])
    [Op.createT (CreateBody.mk "T" "" "" (some (.arr ["A"])) 0 ""), Op.deleteT "T"]
    (by decide) (by decide) (by decide) 2

/-- Counterexample to C2 as stated: updating tale T with the references
array containing only the nonexistent key B succeeds with 200 instead of
failing MissingReferences, and the store is written. -/
theorem c2_counterexample :
    findScp (DB.mk [Scp.mk "A" "" "" "" 0 "" "" "" "" ["T"]]
      [Tale.mk "T" "" "" (some (.arr ["A"])) 0 ""]) "B" = none ∧
    (updateTale (DB.mk [Scp.mk "A" "" "" "" 0 "" "" "" "" ["T"]]
        [Tale.mk "T" "" "" (some (.arr ["A"])) 0 ""]) "T"
      (TalePatch.mk none none none (some (.arr ["B"])) none none)).2 = .updated ∧
    (updateTale (DB.mk [Scp.mk "A" "" "" "" 0 "" "" "" "" ["T"]]
        [Tale.mk "T" "" "" (some (.arr ["A"])) 0 ""]) "T"
      (TalePatch.mk none none none (some (.arr ["B"])) none none)).1
      ≠ DB.mk [Scp.mk "A" "" "" "" 0 "" "" "" "" ["T"]]
          [Tale.mk "T" "" "" (some (.arr ["A"])) 0 ""] := by
  decide

/-- C2 (amended): UpdateNarrativeItem performs no reference validation: a
modifying update of an existing item whose new entity_refs array contains
a key with no matching entity succeeds with 200, persists the new
references on the item, and leaves the referential-integrity invariant
broken by the resulting dangling forward reference. -/
theorem c2_amended_update_skips_validation (db : DB) (tid : String) (p : TalePatch)
    (t0 : Tale) (oldL newL : List String) (hwf : WF db)
    (hfind : findTale db tid = some t0)
    (ht0 : t0.scp_id = some (.arr oldL))
    (hp : p.scp_id = some (.arr newL))
    (hpid : p.tale_id = none)
    (hne : applyPatch t0 p ≠ t0)
    (hmiss : ∃ k ∈ newL, findScp db k = none) :
    (updateTale db tid p).2 = .updated ∧
    (∃ t ∈ (updateTale db tid p).1.tales, t.tale_id = t0.tale_id ∧
      t.scp_id = some (.arr newL)) ∧
    ¬ Inv (updateTale db tid p).1 := by
  obtain ⟨hst, htales, hscps⟩ :=
    updateTale_reconcile_char db tid p t0 oldL newL hwf hfind ht0 hp hne
  obtain ⟨ht0mem, ht0id⟩ := findTale_some db tid t0 hfind
  have hbt0 : (t0.tale_id == tid) = true := by simp [ht0id]
  have hnewmem : applyPatch t0 p ∈ (updateTale db tid p).1.tales := by
    rw [htales]
    exact List.mem_map.mpr ⟨t0, ht0mem, by rw [if_pos hbt0]⟩
  refine ⟨hst, ⟨applyPatch t0 p, hnewmem, applyPatch_tale_id t0 p hpid,
    applyPatch_refs_some t0 p _ hp⟩, ?_⟩
  intro hInvF
  obtain ⟨k, hk, hkmiss⟩ := hmiss
  have hk2 : k ∈ refKeys (applyPatch t0 p).scp_id := by
    rw [applyPatch_refs_some t0 p _ hp]
    exact hk
  obtain ⟨e2, he2, he2k, _⟩ := hInvF.1 (applyPatch t0 p) hnewmem k hk2
  rw [hscps] at he2
  obtain ⟨e, he, hFe⟩ := List.mem_map.mp he2
  have hekey : e.scp_id = k := by
    rw [← he2k, ← hFe]
    exact (reconcileStep_key tid oldL newL e).symm
  have hknone : ∀ x ∈ db.scps, ¬(x.scp_id == k) = true := List.find?_eq_none.mp hkmiss
  exact (hknone e he) (by simp [hekey])

/-- Witness for the amended C2 at a concrete input: entity A holds the
back-reference of tale T, the update supplies the array containing only
the missing key B, succeeds, and breaks the invariant. -/
theorem c2_amended_witness :
    (updateTale (DB.mk [Scp.mk "A" "" "" "" 0 "" "" "" "" ["T"]]
        [Tale.mk "T" "" "" (some (.arr ["A"])) 0 ""]) "T"
      (TalePatch.mk none none none (some (.arr ["B"])) none none)).2 = .updated ∧
    (∃ t ∈ (updateTale (DB.mk [Scp.mk "A" "" "" "" 0 "" "" "" "" ["T"]]
        [Tale.mk "T" "" "" (some (.arr ["A"])) 0 ""]) "T"
      (TalePatch.mk none none none (some (.arr ["B"])) none none)).1.tales,
      t.tale_id = (Tale.mk "T" "" "" (some (.arr ["A"])) 0 "").tale_id ∧
      t.scp_id = some (.arr ["B"])) ∧
    ¬ Inv (updateTale (DB.mk [Scp.mk "A" "" "" "" 0 "" "" "" "" ["T"]]
        [Tale.mk "T" "" "" (some (.arr ["A"])) 0 ""]) "T"
      (TalePatch.mk none none none (some (.arr ["B"])) none none)).1 :=
  c2_amended_update_skips_validation
    (DB.mk [Scp.mk "A" "" "" "" 0 "" "" "" "" ["T"]]
      [Tale.mk "T" "" "" (some (.arr ["A"])) 0 ""]) "T"
    (TalePatch.mk none none none (some (.arr ["B"])) none none)
    (Tale.mk "T" "" "" (some (.arr ["A"])) 0 "") ["A"] ["B"]
    (by decide) (by decide) rfl rfl rfl (by decide) ⟨"B", by decide, by decide⟩

/-- Counterexample to C9 as stated: a creation whose scp_id is the string
A, which is not an array, answers 201 instead of surfacing a 500 store
error, because a for-of loop iterates a string character by character,
and it even adds a back-reference to the entity keyed by that
character. -/
theorem c9_counterexample :
    (createTale (DB.mk [Scp.mk "A" "" "" "" 0 "" "" "" "" []] [])
      (CreateBody.mk "T" "" "" (some (.str "A")) 0 "")).2 = .created ∧
    (createTale (DB.mk [Scp.mk "A" "" "" "" 0 "" "" "" "" []] [])
      (CreateBody.mk "T" "" "" (some (.str "A")) 0 "")).2 ≠ .storeError ∧
    (∃ e ∈ (createTale (DB.mk [Scp.mk "A" "" "" "" 0 "" "" "" "" []] [])
      (CreateBody.mk "T" "" "" (some (.str "A")) 0 "")).1.scps,
      e.scp_id = "A" ∧ "T" ∈ e.scp_tales) := by
  decide

/-- C9 (amended): a creation whose scp_id is absent or a non-iterable
non-array value skips validation, inserts the tale anyway, and then the
for-of loop throws, so the call answers 500 while the inserted tale stays
persisted and no entity is touched; a string value also skips validation
and inserts, but iterates its characters instead of throwing. -/
theorem c9_amended_noniterable_refs (db : DB) (b : CreateBody)
    (h : b.scp_id = none ∨ ∃ bt, b.scp_id = some (.nonIter bt)) :
    createTale db b
      = (DB.mk db.scps
          (db.tales ++ [Tale.mk b.tale_id b.title b.content b.scp_id b.rating b.url]),
         .storeError) := by
  rcases h with h | ⟨bt, h⟩
  · simp only [createTale, h, forOfRefs]
    rw [if_pos trivial]
  · simp only [createTale, h, forOfRefs]
    rw [if_pos trivial]

/-- Witness for the amended C9 at a concrete input: a creation with the
scp_id field absent answers 500 and leaves the tale persisted with the
entities untouched. -/
theorem c9_amended_witness :
    createTale (DB.mk [Scp.mk "A" "" "" "" 0 "" "" "" "" []] [])
      (CreateBody.mk "T" "" "" none 0 "")
      = (DB.mk [Scp.mk "A" "" "" "" 0 "" "" "" "" []]
          [Tale.mk "T" "" "" none 0 ""], .storeError) :=
  c9_amended_noniterable_refs (DB.mk [Scp.mk "A" "" "" "" 0 "" "" "" "" []] [])
    (CreateBody.mk "T" "" "" none 0 "") (Or.inl rfl)

end SCPapi
